import Mathlib

/-!
# timestamp-source-name: a verification development

A shallow embedding of `module.go` (package `timestampsourcename`): the
configuration validator, the constructor that paints the blue reference
image, and the camera operations, followed by theorems about them.

Conventions of the embedding.
* Go `int` values are `Int`; no arithmetic of the module can overflow.
* A Go call either returns or panics: `Outcome`.
* A Go `error` is identified by its message; `nil` is `none`.
* `time.Now()` is an input of `Images`: the operation is a function of the
  component and of the instant the wall clock delivered.
* `rimage.EncodeImage` belongs to another repository and is a parameter.
* What `make` reads of the platform, the size of a slice element and the
  allocation limit of the runtime, is a parameter: `Runtime`.
-/

namespace TimestampSourceName

/-! ## Go runtime vocabulary -/

/-- Go `error` value, identified by its message. -/
structure GoError where
  msg : String
deriving DecidableEq

/-- Result of running a Go function: it returns a value or it panics. -/
inductive Outcome (α : Type) where
  | ret : α → Outcome α
  | panic : String → Outcome α
deriving DecidableEq

/-- Sequencing of Go statements: a panic aborts what follows. -/
def Outcome.andThen {α β : Type} (o : Outcome α) (f : α → Outcome β) : Outcome β :=
  match o with
  | Outcome.ret a => f a
  | Outcome.panic m => Outcome.panic m

/-- Normal termination of a call. -/
def Outcome.returns {α : Type} (o : Outcome α) : Prop :=
  ∃ a, o = Outcome.ret a

/-! ## Package-level values (`module.go`, lines 21-28) -/

/-- The value `errUnimplemented = errors.New("unimplemented")`. -/
def errUnimplemented : GoError := ⟨"unimplemented"⟩

/-- The layout constant handed to `time.Time.Format`. -/
def timestampFormat : String := "2006-01-02T15:04:05.000Z07:00"

/-! ## Configuration (`module.go`, lines 38-52) -/

/-- The struct `Config`. -/
structure Config where
  NImages : Int
deriving DecidableEq

/-- The method `(*Config).Validate`: required dependencies, optional
dependencies, error. A nil slice is the empty list. -/
def Config.Validate (cfg : Config) (_path : String) :
    List String × List String × Option GoError :=
  if cfg.NImages < 1 then
    ([], [], some ⟨"n_images attribute must be greater than 0"⟩)
  else
    ([], [], none)

/-! ## The standard library images used by the constructor

`image.Rect`, `image.NewRGBA`, `(*image.RGBA).Set` and `(*image.RGBA).RGBAAt`
of the Go standard library, with `uint8` channels as naturals below 256. -/

/-- The struct `color.RGBA`. -/
structure RGBAColor where
  R : Nat
  G : Nat
  B : Nat
  A : Nat
deriving DecidableEq

/-- The struct `image.Point`. -/
structure Point where
  X : Int
  Y : Int
deriving DecidableEq

/-- The struct `image.Rectangle`. -/
structure Rectangle where
  Min : Point
  Max : Point
deriving DecidableEq

/-- The function `image.Rect`: the corners are put in order. -/
def Rect (x0 y0 x1 y1 : Int) : Rectangle :=
  let xa := if x0 > x1 then x1 else x0
  let xb := if x0 > x1 then x0 else x1
  let ya := if y0 > y1 then y1 else y0
  let yb := if y0 > y1 then y0 else y1
  ⟨⟨xa, ya⟩, ⟨xb, yb⟩⟩

/-- Width of a rectangle. -/
def Rectangle.Dx (r : Rectangle) : Int := r.Max.X - r.Min.X

/-- Height of a rectangle. -/
def Rectangle.Dy (r : Rectangle) : Int := r.Max.Y - r.Min.Y

/-- The method `Point.In`. -/
def Point.In (p : Point) (r : Rectangle) : Bool :=
  decide (r.Min.X ≤ p.X) && decide (p.X < r.Max.X) &&
    decide (r.Min.Y ≤ p.Y) && decide (p.Y < r.Max.Y)

/-- The struct `image.RGBA`: the pixel buffer, the stride and the bounds. -/
structure RGBA where
  Pix : List Nat
  Stride : Int
  Rect : Rectangle
deriving DecidableEq

/-- The function `image.NewRGBA`: a zeroed buffer of four bytes per pixel. -/
def NewRGBA (r : Rectangle) : RGBA :=
  { Pix := List.replicate (4 * r.Dx * r.Dy).toNat 0, Stride := 4 * r.Dx, Rect := r }

/-- The method `(*RGBA).Bounds`. -/
def RGBA.Bounds (p : RGBA) : Rectangle := p.Rect

/-- The method `(*RGBA).PixOffset`. -/
def RGBA.PixOffset (p : RGBA) (x y : Int) : Int :=
  (y - p.Rect.Min.Y) * p.Stride + (x - p.Rect.Min.X) * 4

/-- The method `(*RGBA).Set` at a colour that is already `color.RGBA`: a
point outside the bounds is ignored, otherwise the four bytes at the pixel
offset are overwritten. -/
def RGBA.Set (p : RGBA) (x y : Int) (c : RGBAColor) : RGBA :=
  if Point.In ⟨x, y⟩ p.Rect then
    let i := (p.PixOffset x y).toNat
    { p with Pix := (((p.Pix.set i c.R).set (i + 1) c.G).set (i + 2) c.B).set (i + 3) c.A }
  else p

/-- The method `(*RGBA).RGBAAt`: the zero colour outside the bounds. -/
def RGBA.RGBAAt (p : RGBA) (x y : Int) : RGBAColor :=
  if Point.In ⟨x, y⟩ p.Rect then
    let i := (p.PixOffset x y).toNat
    ⟨p.Pix.getD i 0, p.Pix.getD (i + 1) 0, p.Pix.getD (i + 2) 0, p.Pix.getD (i + 3) 0⟩
  else ⟨0, 0, 0, 0⟩

/-- The inner loop `for x := 0; x < w; x++ { img.Set(x, y, c) }`. -/
def fillRow (img : RGBA) (c : RGBAColor) (w : Nat) (y : Int) : RGBA :=
  (List.range w).foldl (fun im x => im.Set (x : Int) y c) img

/-- The outer loop `for y := 0; y < h; y++ { ... }` around `fillRow`. -/
def fillRows (img : RGBA) (c : RGBAColor) (w h : Nat) : RGBA :=
  (List.range h).foldl (fun im y => fillRow im c w (y : Int)) img

/-- The colour `color.RGBA{0, 0, 255, 255}`. -/
def blue : RGBAColor := ⟨0, 0, 255, 255⟩

/-! ## The component (`module.go`, lines 54-99) -/

/-- The struct `timeStampSourceNameTimestampSourceNames`. The logger is an
output sink and is left out; `cfg` is the record behind the retained
pointer; `cancelled` is the state of the cancel context. -/
structure timeStampSourceNameTimestampSourceNames where
  name : String
  bluePic : RGBA
  nImages : Int
  cfg : Config
  cancelled : Bool
deriving DecidableEq

/-- Lines 81-87 of the constructor: the picture `img` after the two loops
have set every pixel of a new 600 by 400 image to `blue`. -/
def paintedPicture : RGBA :=
  fillRows (NewRGBA (Rect 0 0 600 400)) blue 600 400

/-- The constructor `NewTimestampSourceNames`: the component and the error. -/
def NewTimestampSourceNames (name : String) (conf : Config) :
    Option timeStampSourceNameTimestampSourceNames × Option GoError :=
  let img := paintedPicture
  (some { name := name, bluePic := img, nImages := conf.NImages, cfg := conf,
          cancelled := false }, none)

/-! ## Wall-clock instants and `time.Time.Format`

An instant of the `time` package as its observable content: the Unix second,
the nanosecond within it, and the offset of the zone it is displayed in
(seconds east of UTC). The calendar is the proleptic Gregorian one; days are
counted from 0001-01-01 with flooring division, which is the count the
package derives from its absolute epoch (a year congruent to 1 modulo 400)
for every instant whose absolute count of seconds fits its 64-bit word, as
every reading of the clock does. -/

/-- The content of a `time.Time` that formatting reads. -/
structure Time where
  sec : Int
  nsec : Fin 1000000000
  offset : Int
deriving DecidableEq

/-- The method `Time.UnixNano`, without the 64-bit wrap: the instant on the
nanosecond axis, the resolution of the clock. -/
def Time.UnixNano (t : Time) : Int := t.sec * 1000000000 + (t.nsec.val : Int)

/-- The method `Time.UnixMilli`: the millisecond the instant falls in. -/
def Time.UnixMilli (t : Time) : Int := t.sec * 1000 + ((t.nsec.val / 1000000 : Nat) : Int)

/-- One decimal digit as a byte. -/
def digitChar (d : Nat) : Char := Char.ofNat (48 + d)

/-- The digit loop of the integer formatters: the last digit is split off
while the number has more than one. The first argument bounds the number of
turns. -/
def decimalAux : Nat → Nat → List Char → List Char
  | 0, _, acc => acc
  | fuel + 1, n, acc =>
    if n < 10 then digitChar n :: acc
    else decimalAux fuel (n / 10) (digitChar (n % 10) :: acc)

/-- Decimal rendering of a natural number. -/
def decimal (n : Nat) : List Char := decimalAux (n + 1) n []

/-- The verb `%d` of `fmt` at an `int`. -/
def formatInt (i : Int) : List Char :=
  (if i < 0 then ['-'] else []) ++ decimal i.natAbs

/-- The function `time.appendInt`: sign, zero padding up to `width`, digits. -/
def appendInt (x : Int) (width : Nat) : List Char :=
  let ds := decimal x.natAbs
  (if x < 0 then ['-'] else []) ++ (List.replicate (width - ds.length) '0' ++ ds)

/-- The table `time.daysBefore`. -/
def daysBefore : List Int := [0, 31, 59, 90, 120, 151, 181, 212, 243, 273, 304, 334, 365]

/-- The function `time.isLeap`. -/
def isLeap (year : Int) : Bool :=
  decide (year % 4 = 0) && (decide (year % 100 ≠ 0) || decide (year % 400 = 0))

/-- The end of `time.absDate`: the month is estimated as if every month had
31 days and corrected with the table; month and day count from 1. -/
def monthEstimate (day : Int) : Int × Int :=
  let month := day / 31
  let stop := daysBefore.getD (month + 1).toNat 0
  if day ≥ stop then (month + 2, day - stop + 1)
  else (month + 1, day - daysBefore.getD month.toNat 0 + 1)

/-- Month and day of the month from the day of the year, as in `absDate`:
in a leap year the leap day is answered at once and the days after it are
moved back by one. -/
def monthDay (leap : Bool) (yday : Int) : Int × Int :=
  if leap && decide (yday = 59) then (2, 29)
  else monthEstimate (if leap && decide (yday > 59) then yday - 1 else yday)

/-- The first half of `time.absDate`, on a day count from 0001-01-01: the
year and the day of the year. The 400-, 100-, 4- and 1-year cycles are cut
off in turn; `n - n / 4` is `n -= n >> 2`. -/
def yearDay (days : Int) : Int × Int :=
  let n400 := days / 146097
  let d1 := days - 146097 * n400
  let c100 := d1 / 36524
  let n100 := c100 - c100 / 4
  let d2 := d1 - 36524 * n100
  let n4 := d2 / 1461
  let d3 := d2 - 1461 * n4
  let c1 := d3 / 365
  let n1 := c1 - c1 / 4
  let yday := d3 - 365 * n1
  (400 * n400 + 100 * n100 + 4 * n4 + n1 + 1, yday)

/-- The function `time.absDate` in full: year, month, day. -/
def absDate (days : Int) : Int × Int × Int :=
  let yd := yearDay days
  let md := monthDay (isLeap yd.1) yd.2
  (yd.1, md.1, md.2)

/-- Seconds from 0001-01-01T00:00:00 to the Unix epoch. -/
def unixToInternal : Int := 62135596800

/-- Seconds since 0001-01-01T00:00:00 on the clock of the zone. -/
def Time.abs (t : Time) : Int := t.sec + t.offset + unixToInternal

/-- The pieces into which `time.Time.Format` cuts a layout. -/
inductive Chunk where
  | lit : String → Chunk
  | stdLongYear : Chunk
  | stdZeroMonth : Chunk
  | stdZeroDay : Chunk
  | stdHour : Chunk
  | stdZeroMinute : Chunk
  | stdZeroSecond : Chunk
  | stdFracSecond0 : Nat → Chunk
  | stdISO8601ColonTZ : Chunk
deriving DecidableEq

/-- The chunks of the constant `timestampFormat`,
`2006-01-02T15:04:05.000Z07:00`. -/
def timestampChunks : List Chunk :=
  [Chunk.stdLongYear, Chunk.lit "-", Chunk.stdZeroMonth, Chunk.lit "-", Chunk.stdZeroDay,
   Chunk.lit "T", Chunk.stdHour, Chunk.lit ":", Chunk.stdZeroMinute, Chunk.lit ":",
   Chunk.stdZeroSecond, Chunk.stdFracSecond0 3, Chunk.stdISO8601ColonTZ]

/-- The function `time.appendNano` for a fixed number of digits: the dot and
the leading digits of the nanosecond written on nine places. -/
def appendNano (nanosec : Nat) (n : Nat) : List Char :=
  '.' :: (appendInt (nanosec : Int) 9).take n

/-- The zone as `Z07:00`: `Z` at offset zero, else sign, hours and minutes. -/
def appendZone (offset : Int) : List Char :=
  if offset = 0 then ['Z']
  else
    let zone := Int.tdiv offset 60
    let sign := if zone < 0 then '-' else '+'
    let zone := if zone < 0 then -zone else zone
    sign :: (appendInt (Int.tdiv zone 60) 2 ++ ':' :: appendInt (Int.tmod zone 60) 2)

/-- What `Format` appends for one chunk. -/
def Time.appendChunk (t : Time) (c : Chunk) : List Char :=
  let date := absDate (t.abs / 86400)
  let clock := t.abs % 86400
  match c with
  | Chunk.lit s => s.data
  | Chunk.stdLongYear => appendInt date.1 4
  | Chunk.stdZeroMonth => appendInt date.2.1 2
  | Chunk.stdZeroDay => appendInt date.2.2 2
  | Chunk.stdHour => appendInt (clock / 3600) 2
  | Chunk.stdZeroMinute => appendInt (clock % 3600 / 60) 2
  | Chunk.stdZeroSecond => appendInt (clock % 60) 2
  | Chunk.stdFracSecond0 n => appendNano t.nsec.val n
  | Chunk.stdISO8601ColonTZ => appendZone t.offset

/-- The method `Time.Format` on a layout given by its chunks. -/
def Time.Format (t : Time) (layout : List Chunk) : String :=
  String.mk (layout.foldl (fun b c => b ++ t.appendChunk c) [])

/-! ## Camera operations (`module.go`, lines 101-172) -/

/-- The struct `camera.NamedImage`; a nil image interface is `none`. -/
structure NamedImage where
  Image : Option RGBA
  SourceName : String
deriving DecidableEq

/-- The struct `resource.ResponseMetadata`. -/
structure ResponseMetadata where
  CapturedAt : Time
deriving DecidableEq

/-- The struct `camera.ImageMetadata`. -/
structure ImageMetadata where
  MimeType : String
deriving DecidableEq

/-- The struct `camera.Properties`, as far as the module sets it. -/
structure Properties where
  SupportsPCD : Bool
deriving DecidableEq

/-- What `runtime.makeslice` reads of the platform: the size in bytes of a
`camera.NamedImage` and the constant `runtime.maxAlloc`. -/
structure Runtime where
  elemSize : Nat
  maxAlloc : Nat
deriving DecidableEq

/-- The values of a 64-bit Linux build: `maxAlloc` is `1 << 48`, and a
`camera.NamedImage` of an interface and a string takes 32 bytes. -/
def linuxAmd64 : Runtime := ⟨32, 281474976710656⟩

/-- The builtin `make([]camera.NamedImage, n)`, that is `runtime.makeslice`:
it panics when the length is negative and when the byte size
`elemSize * n` overflows a `uintptr` or exceeds `maxAlloc` (`maxAlloc` is a
`uintptr` itself, so both say that the product exceeds it); otherwise it
gives `n` zero entries. Exhaustion of the memory of the machine below that
limit is not modelled. -/
def makeSlice (rt : Runtime) (n : Int) : Outcome (List NamedImage) :=
  if n < 0 ∨ (rt.maxAlloc : Int) < (rt.elemSize : Int) * n then
    Outcome.panic "makeslice: len out of range"
  else Outcome.ret (List.replicate n.toNat ⟨none, ""⟩)

/-- An assignment to a field of `result[i]`: an index outside the slice
panics. -/
def assignAt (result : List NamedImage) (i : Nat) (f : NamedImage → NamedImage) :
    Outcome (List NamedImage) :=
  match result[i]? with
  | some e => Outcome.ret (result.set i (f e))
  | none => Outcome.panic "index out of range"

/-- The call `fmt.Sprintf("%s_%d", timestampStr, i)`. -/
def sourceName (timestampStr : String) (i : Int) : String :=
  timestampStr ++ "_" ++ String.mk (formatInt i)

/-- The loop of `Images` over the indices it visits. -/
def imagesLoop (s : timeStampSourceNameTimestampSourceNames) (timestampStr : String) :
    List Nat → List NamedImage → Outcome (List NamedImage)
  | [], result => Outcome.ret result
  | i :: rest, result =>
    (assignAt result i (fun e => { e with SourceName := sourceName timestampStr (i : Int) })).andThen
      fun r1 =>
    (assignAt r1 i (fun e => { e with Image := some s.bluePic })).andThen
      fun r2 => imagesLoop s timestampStr rest r2

/-- The method `Images`, given the platform and the reading `now` of
`time.Now()`. The loop runs over `i = 0, 1, ...` while `i < s.nImages`. -/
def Images (rt : Runtime) (s : timeStampSourceNameTimestampSourceNames) (now : Time) :
    Outcome (List NamedImage × ResponseMetadata × Option GoError) :=
  let timestampStr := now.Format timestampChunks
  (makeSlice rt s.nImages).andThen fun result =>
  (imagesLoop s timestampStr (List.range s.nImages.toNat) result).andThen fun result =>
  Outcome.ret (result, ⟨now⟩, none)

/-- The method `Image`; `encode` stands for `rimage.EncodeImage` with the
context applied. A nil byte slice is the empty list. -/
def Image (encode : RGBA → String → List Nat × Option GoError)
    (s : timeStampSourceNameTimestampSourceNames) (mimeType : String) :
    List Nat × ImageMetadata × Option GoError :=
  match encode s.bluePic mimeType with
  | (_, some err) => ([], ⟨""⟩, some err)
  | (theBytes, none) => (theBytes, ⟨mimeType⟩, none)

/-- The method `Properties`. -/
def timeStampSourceNameTimestampSourceNames.Properties
    (_s : timeStampSourceNameTimestampSourceNames) :
    Properties × Option GoError :=
  (⟨false⟩, none)

/-- The method `Close`: the cancel function is called and nil returned. -/
def Close (s : timeStampSourceNameTimestampSourceNames) :
    timeStampSourceNameTimestampSourceNames × Option GoError :=
  ({ s with cancelled := true }, none)

/-- The method `Stream`. -/
def Stream (_s : timeStampSourceNameTimestampSourceNames) (_errHandlers : List String) :
    Outcome (Option Unit × Option GoError) :=
  Outcome.panic "not implemented"

/-- The method `NextPointCloud`. -/
def NextPointCloud (_s : timeStampSourceNameTimestampSourceNames) :
    Outcome (Option Unit × Option GoError) :=
  Outcome.panic "not implemented"

/-- The method `DoCommand`. -/
def DoCommand (_s : timeStampSourceNameTimestampSourceNames) (_cmd : List (String × String)) :
    Outcome (Option (List (String × String)) × Option GoError) :=
  Outcome.panic "not implemented"

/-- The method `Geometries`. -/
def Geometries (_s : timeStampSourceNameTimestampSourceNames) (_extra : List (String × String)) :
    Outcome (List Unit × Option GoError) :=
  Outcome.panic "not implemented"

/-- The method `SubscribeRTP`. -/
def SubscribeRTP (_s : timeStampSourceNameTimestampSourceNames) (_bufferSize : Int) :
    Outcome (Option Unit × Option GoError) :=
  Outcome.panic "not implemented"

/-- The method `Unsubscribe`. -/
def Unsubscribe (_s : timeStampSourceNameTimestampSourceNames) (_id : String) :
    Outcome (Option GoError) :=
  Outcome.panic "not implemented"

/-! ## Calls on a component -/

/-- The operations the component supports, with the inputs the embedding
gives them. -/
inductive Call where
  | images : Time → Call
  | image : String → Call
  | properties : Call
  | close : Call
deriving DecidableEq

/-- The component after a call. `Images`, `Image` and `Properties` assign to
no field of their receiver; `Close` runs the cancel function. -/
def step (s : timeStampSourceNameTimestampSourceNames) :
    Call → timeStampSourceNameTimestampSourceNames
  | Call.images _ => s
  | Call.image _ => s
  | Call.properties => s
  | Call.close => (Close s).1

/-- The component after a sequence of calls. -/
def run (s : timeStampSourceNameTimestampSourceNames) (calls : List Call) :
    timeStampSourceNameTimestampSourceNames :=
  calls.foldl step s

/-- The operations the component declares and does not support, with their
arguments. -/
inductive Unsupported where
  | stream : List String → Unsupported
  | nextPointCloud : Unsupported
  | doCommand : List (String × String) → Unsupported
  | geometries : List (String × String) → Unsupported
  | subscribeRTP : Int → Unsupported
  | unsubscribe : String → Unsupported
deriving DecidableEq

/-- The result of a call seen through a function of the returned value. -/
def Outcome.map {α β : Type} (f : α → β) (o : Outcome α) : Outcome β :=
  o.andThen (fun a => Outcome.ret (f a))

/-- The error result of a call of an unsupported operation. -/
def callUnsupported (s : timeStampSourceNameTimestampSourceNames) :
    Unsupported → Outcome (Option GoError)
  | Unsupported.stream errHandlers => (Stream s errHandlers).map Prod.snd
  | Unsupported.nextPointCloud => (NextPointCloud s).map Prod.snd
  | Unsupported.doCommand cmd => (DoCommand s cmd).map Prod.snd
  | Unsupported.geometries extra => (Geometries s extra).map Prod.snd
  | Unsupported.subscribeRTP bufferSize => (SubscribeRTP s bufferSize).map Prod.snd
  | Unsupported.unsubscribe id => Unsubscribe s id

/-! ## Vocabulary of the proofs -/

/-- The response of `Images` in closed form: entry `i` carries the picture
of the component and the label of index `i`. -/
def batch (s : timeStampSourceNameTimestampSourceNames) (now : Time) : List NamedImage :=
  (List.range s.nImages.toNat).map
    (fun (i : Nat) => ⟨some s.bluePic, sourceName (now.Format timestampChunks) (i : Int)⟩)

/-- Value of a digit byte. -/
def digitValue (c : Char) : Nat := c.toNat - 48

/-- Value of a string of digit bytes, read from the left. -/
def digitsValue (cs : List Char) : Nat := cs.foldl (fun a c => 10 * a + digitValue c) 0

/-- A byte that is one of the ten digits. -/
def IsDigit (c : Char) : Prop := ∃ d, d < 10 ∧ c = digitChar d

/-- Shape of the picture the constructor works on: bounds, stride and buffer
length of `image.NewRGBA(image.Rect(0, 0, 600, 400))`. -/
structure Canvas (im : RGBA) : Prop where
  rect : im.Rect = ⟨⟨0, 0⟩, ⟨600, 400⟩⟩
  stride : im.Stride = 2400
  len : im.Pix.length = 960000

/-- Day of the year of a month and day, the inverse of `monthDay`. -/
def ydayOf (leap : Bool) (month day : Int) : Int :=
  daysBefore.getD (month - 1).toNat 0 + day - 1 +
    (if leap && decide (month > 2) then 1 else 0)

/-! # Lemmas -/

/-! ## The loop of `Images` -/

/-- The entry the loop leaves at index `i`. -/
theorem assignAt_of_lt (result : List NamedImage) (i : Nat) (f : NamedImage → NamedImage)
    (h : i < result.length) :
    assignAt result i f = Outcome.ret (result.set i (f (result.get ⟨i, h⟩))) := by
  unfold assignAt
  rw [List.getElem?_eq_getElem h]
  rfl

/-- One turn of the loop body writes the label and the picture at `i`. -/
theorem imagesLoop_cons (s : timeStampSourceNameTimestampSourceNames) (ts : String)
    (i : Nat) (rest : List Nat) (result : List NamedImage) (h : i < result.length) :
    imagesLoop s ts (i :: rest) result
      = imagesLoop s ts rest (result.set i ⟨some s.bluePic, sourceName ts (i : Int)⟩) := by
  have h1 : i < (result.set i
      { result.get ⟨i, h⟩ with SourceName := sourceName ts (i : Int) }).length := by
    simpa using h
  simp only [imagesLoop]
  rw [assignAt_of_lt result i _ h]
  simp only [Outcome.andThen]
  rw [assignAt_of_lt _ i _ h1]
  simp [Outcome.andThen, List.set_set]

/-- The loop returns: every visited index holds its entry, the others are
untouched, and the length is kept. -/
theorem imagesLoop_spec (s : timeStampSourceNameTimestampSourceNames) (ts : String) :
    ∀ (idx : List Nat) (result : List NamedImage), (∀ i ∈ idx, i < result.length) →
      ∃ r, imagesLoop s ts idx result = Outcome.ret r ∧ r.length = result.length ∧
        (∀ j, j ∈ idx → j < result.length →
          r[j]? = some ⟨some s.bluePic, sourceName ts (j : Int)⟩) ∧
        (∀ j, j ∉ idx → r[j]? = result[j]?) := by
  intro idx
  induction idx with
  | nil =>
    intro result _
    exact ⟨result, rfl, rfl, by simp, by simp⟩
  | cons i rest ih =>
    intro result hall
    have hi : i < result.length := hall i (List.mem_cons_self _ _)
    have hrest : ∀ k ∈ rest,
        k < (result.set i ⟨some s.bluePic, sourceName ts (i : Int)⟩).length := by
      intro k hk
      simpa using hall k (List.mem_cons_of_mem _ hk)
    obtain ⟨r, hr, hlen, hin, hout⟩ := ih _ hrest
    refine ⟨r, ?_, ?_, ?_, ?_⟩
    · rw [imagesLoop_cons s ts i rest result hi]
      exact hr
    · simpa using hlen
    · intro j hj hjlt
      by_cases hjr : j ∈ rest
      · exact hin j hjr (by simpa using hjlt)
      · have hji : j = i := by
          rcases List.mem_cons.mp hj with h | h
          · exact h
          · exact absurd h hjr
        subst hji
        rw [hout j hjr]
        simp [hi]
    · intro j hj
      have hji : i ≠ j := fun h => hj (h ▸ List.mem_cons_self _ _)
      have hjr : j ∉ rest := fun h => hj (List.mem_cons_of_mem _ h)
      rw [hout j hjr]
      simp [hji]

/-- The allocation of `Images` succeeds exactly on the counts that are not
negative and whose byte size is within the limit. -/
theorem makeSlice_of_fits (rt : Runtime) (n : Int) (h0 : 0 ≤ n)
    (hfit : (rt.elemSize : Int) * n ≤ (rt.maxAlloc : Int)) :
    makeSlice rt n = Outcome.ret (List.replicate n.toNat ⟨none, ""⟩) := by
  unfold makeSlice
  rw [if_neg (by omega)]

/-- With a count that is not negative and within the allocation limit,
`Images` returns the closed form, the instant it was given and a nil error. -/
theorem Images_of_fits (rt : Runtime) (s : timeStampSourceNameTimestampSourceNames)
    (now : Time) (h : 0 ≤ s.nImages)
    (hfit : (rt.elemSize : Int) * s.nImages ≤ (rt.maxAlloc : Int)) :
    Images rt s now = Outcome.ret (batch s now, ⟨now⟩, none) := by
  have hm := makeSlice_of_fits rt s.nImages h hfit
  obtain ⟨r, hr, hlen, hin, _⟩ := imagesLoop_spec s (now.Format timestampChunks)
    (List.range s.nImages.toNat) (List.replicate s.nImages.toNat ⟨none, ""⟩)
    (by intro i hi; simpa using List.mem_range.mp hi)
  have hreq : r = batch s now := by
    apply List.ext_getElem?
    intro j
    by_cases hj : j < s.nImages.toNat
    · rw [hin j (List.mem_range.mpr hj) (by simpa using hj)]
      simp [batch, List.getElem?_range hj, hj]
    · have h1 : r.length ≤ j := by simp at hlen; omega
      have h2 : (batch s now).length ≤ j := by simp [batch]; omega
      rw [List.getElem?_eq_none h1, List.getElem?_eq_none h2]
  unfold Images
  simp only [hm, Outcome.andThen, hr, hreq]

/-- With a negative count, or one whose byte size exceeds the allocation
limit, the allocation of `Images` panics. -/
theorem Images_of_unfit (rt : Runtime) (s : timeStampSourceNameTimestampSourceNames)
    (now : Time)
    (h : s.nImages < 0 ∨ (rt.maxAlloc : Int) < (rt.elemSize : Int) * s.nImages) :
    Images rt s now = Outcome.panic "makeslice: len out of range" := by
  unfold Images makeSlice
  rw [if_pos h]
  rfl

/-- Whatever `Images` returns is the closed form, the instant and nil. -/
theorem Images_ret (rt : Runtime) (s : timeStampSourceNameTimestampSourceNames)
    (now : Time) (res : List NamedImage) (meta : ResponseMetadata) (err : Option GoError)
    (h : Images rt s now = Outcome.ret (res, meta, err)) :
    0 ≤ s.nImages ∧ (rt.elemSize : Int) * s.nImages ≤ (rt.maxAlloc : Int) ∧
      res = batch s now ∧ meta = ⟨now⟩ ∧ err = none := by
  by_cases hu : s.nImages < 0 ∨ (rt.maxAlloc : Int) < (rt.elemSize : Int) * s.nImages
  · rw [Images_of_unfit rt s now hu] at h
    exact Outcome.noConfusion h
  · have h0 : 0 ≤ s.nImages := by omega
    have hfit : (rt.elemSize : Int) * s.nImages ≤ (rt.maxAlloc : Int) := by omega
    rw [Images_of_fits rt s now h0 hfit] at h
    simp only [Outcome.ret.injEq, Prod.mk.injEq] at h
    exact ⟨h0, hfit, h.1.symm, h.2.1.symm, h.2.2.symm⟩

/-! ## Decimal rendering -/

theorem digitValue_digitChar (d : Nat) (h : d < 10) : digitValue (digitChar d) = d := by
  interval_cases d <;> rfl

theorem foldl_decimalAux (fuel : Nat) : ∀ (n : Nat) (acc : List Char), n < fuel →
    (decimalAux fuel n acc).foldl (fun a c => 10 * a + digitValue c) 0
      = acc.foldl (fun a c => 10 * a + digitValue c) n := by
  induction fuel with
  | zero => intro n acc h; omega
  | succ fuel ih =>
    intro n acc h
    unfold decimalAux
    by_cases hn : n < 10
    · rw [if_pos hn]
      simp [digitValue_digitChar n hn]
    · rw [if_neg hn]
      rw [ih (n / 10) _ (by omega)]
      simp only [List.foldl_cons]
      rw [digitValue_digitChar (n % 10) (by omega)]
      congr 1
      omega

/-- Reading the decimal rendering gives the number back. -/
theorem digitsValue_decimal (n : Nat) : digitsValue (decimal n) = n := by
  unfold digitsValue decimal
  rw [foldl_decimalAux (n + 1) n [] (by omega)]
  rfl

/-- Distinct numbers have distinct decimal renderings. -/
theorem decimal_injective : Function.Injective decimal := by
  intro a b h
  have := congrArg digitsValue h
  rwa [digitsValue_decimal, digitsValue_decimal] at this

theorem formatInt_natCast (i : Nat) : formatInt (i : Int) = decimal i := by
  unfold formatInt
  simp

/-- Labels of one timestamp are distinct at distinct indices. -/
theorem sourceName_injective (ts : String) (i j : Nat)
    (h : sourceName ts (i : Int) = sourceName ts (j : Int)) : i = j := by
  unfold sourceName at h
  rw [formatInt_natCast, formatInt_natCast] at h
  have hd := congrArg String.data h
  simp only [String.data_append, List.append_cancel_left_eq] at hd
  exact decimal_injective hd

/-! ## The reference image -/

theorem getD_set (l : List Nat) (i j a : Nat) :
    (l.set i a).getD j 0 = if i = j ∧ i < l.length then a else l.getD j 0 := by
  simp only [List.getD_eq_getElem?_getD, List.getElem?_set]
  by_cases h : i = j
  · subst h
    by_cases h2 : i < l.length
    · simp [h2]
    · simp [h2, List.getElem?_eq_none (Nat.le_of_not_lt h2)]
  · simp [h]

theorem Canvas_NewRGBA : Canvas (NewRGBA (Rect 0 0 600 400)) := by
  refine ⟨?_, ?_, ?_⟩
  · rfl
  · rfl
  · show (List.replicate (4 * (Rect 0 0 600 400).Dx * (Rect 0 0 600 400).Dy).toNat 0).length
      = 960000
    rw [List.length_replicate]
    rfl

theorem In_canvas (x y : Nat) :
    Point.In ⟨(x : Int), (y : Int)⟩ ⟨⟨0, 0⟩, ⟨600, 400⟩⟩ = true ↔ x < 600 ∧ y < 400 := by
  simp [Point.In]

theorem offset_canvas (im : RGBA) (hc : Canvas im) (x y : Nat) :
    (im.PixOffset (x : Int) (y : Int)).toNat = y * 2400 + x * 4 := by
  unfold RGBA.PixOffset
  rw [hc.rect, hc.stride]
  simp only [sub_zero]
  omega

theorem Canvas_Set (im : RGBA) (hc : Canvas im) (x y : Int) (c : RGBAColor) :
    Canvas (im.Set x y c) := by
  unfold RGBA.Set
  split
  · exact ⟨hc.rect, hc.stride, by simp [hc.len]⟩
  · exact hc

/-- Writing one pixel changes that pixel and no other. -/
theorem RGBAAt_Set (im : RGBA) (hc : Canvas im) (c : RGBAColor) (x y x1 y1 : Nat)
    (hx : x < 600) (hy : y < 400) (hx1 : x1 < 600) (hy1 : y1 < 400) :
    (im.Set (x : Int) (y : Int) c).RGBAAt (x1 : Int) (y1 : Int)
      = if x1 = x ∧ y1 = y then c else im.RGBAAt (x1 : Int) (y1 : Int) := by
  have hin : Point.In ⟨(x : Int), (y : Int)⟩ im.Rect = true := by
    rw [hc.rect]; exact (In_canvas x y).mpr ⟨hx, hy⟩
  have hin1 : Point.In ⟨(x1 : Int), (y1 : Int)⟩ im.Rect = true := by
    rw [hc.rect]; exact (In_canvas x1 y1).mpr ⟨hx1, hy1⟩
  have hlen := hc.len
  unfold RGBA.Set
  rw [if_pos hin]
  unfold RGBA.RGBAAt
  simp only [hin1, if_true]
  simp only [RGBA.PixOffset, hc.rect, hc.stride, sub_zero]
  have e : ((y : Int) * 2400 + (x : Int) * 4).toNat = y * 2400 + x * 4 := by omega
  have e1 : ((y1 : Int) * 2400 + (x1 : Int) * 4).toNat = y1 * 2400 + x1 * 4 := by omega
  rw [e, e1]
  simp only [getD_set, List.length_set, hlen]
  by_cases hsame : x1 = x ∧ y1 = y
  · obtain ⟨h1, h2⟩ := hsame
    subst h1 h2
    have a1 : ¬ (y1 * 2400 + x1 * 4 + 3 = y1 * 2400 + x1 * 4) := by omega
    have a2 : ¬ (y1 * 2400 + x1 * 4 + 2 = y1 * 2400 + x1 * 4) := by omega
    have a3 : ¬ (y1 * 2400 + x1 * 4 + 1 = y1 * 2400 + x1 * 4) := by omega
    have b0 : y1 * 2400 + x1 * 4 < 960000 := by omega
    have b1 : y1 * 2400 + x1 * 4 + 1 < 960000 := by omega
    have b2 : y1 * 2400 + x1 * 4 + 2 < 960000 := by omega
    have b3 : y1 * 2400 + x1 * 4 + 3 < 960000 := by omega
    simp [b0, b1, b2, b3]
  · rw [if_neg hsame]
    have hd : y * 2400 + x * 4 + 4 ≤ y1 * 2400 + x1 * 4 ∨
        y1 * 2400 + x1 * 4 + 4 ≤ y * 2400 + x * 4 := by omega
    have n1 : ∀ a b : Nat, a < 4 → b < 4 →
        ¬ (y * 2400 + x * 4 + a = y1 * 2400 + x1 * 4 + b) := by
      intro a b ha hb; omega
    have := n1 0 0 (by omega) (by omega)
    have := n1 0 1 (by omega) (by omega)
    have := n1 0 2 (by omega) (by omega)
    have := n1 0 3 (by omega) (by omega)
    have := n1 1 0 (by omega) (by omega)
    have := n1 1 1 (by omega) (by omega)
    have := n1 1 2 (by omega) (by omega)
    have := n1 1 3 (by omega) (by omega)
    have := n1 2 0 (by omega) (by omega)
    have := n1 2 1 (by omega) (by omega)
    have := n1 2 2 (by omega) (by omega)
    have := n1 2 3 (by omega) (by omega)
    have := n1 3 0 (by omega) (by omega)
    have := n1 3 1 (by omega) (by omega)
    have := n1 3 2 (by omega) (by omega)
    have := n1 3 3 (by omega) (by omega)
    simp_all

theorem fillRow_succ (im : RGBA) (c : RGBAColor) (w : Nat) (y : Int) :
    fillRow im c (w + 1) y = (fillRow im c w y).Set (w : Int) y c := by
  simp [fillRow, List.range_succ, List.foldl_append]

theorem fillRows_succ (im : RGBA) (c : RGBAColor) (w h : Nat) :
    fillRows im c w (h + 1) = fillRow (fillRows im c w h) c w (h : Int) := by
  simp [fillRows, List.range_succ, List.foldl_append]

/-- After `w` turns of the inner loop the first `w` pixels of row `y` carry
the colour and every other pixel is as before. -/
theorem fillRow_spec (im : RGBA) (hc : Canvas im) (c : RGBAColor) (y : Nat) (hy : y < 400) :
    ∀ w : Nat, w ≤ 600 → Canvas (fillRow im c w (y : Int)) ∧
      ∀ x1 y1 : Nat, x1 < 600 → y1 < 400 →
        (fillRow im c w (y : Int)).RGBAAt (x1 : Int) (y1 : Int)
          = if y1 = y ∧ x1 < w then c else im.RGBAAt (x1 : Int) (y1 : Int) := by
  intro w
  induction w with
  | zero =>
    intro _
    refine ⟨hc, ?_⟩
    intro x1 y1 _ _
    simp [fillRow]
  | succ w ih =>
    intro hw
    obtain ⟨hcw, hpix⟩ := ih (by omega)
    rw [fillRow_succ]
    refine ⟨Canvas_Set _ hcw _ _ _, ?_⟩
    intro x1 y1 hx1 hy1
    rw [RGBAAt_Set _ hcw c w y x1 y1 (by omega) hy hx1 hy1, hpix x1 y1 hx1 hy1]
    by_cases h1 : x1 = w ∧ y1 = y
    · obtain ⟨rfl, rfl⟩ := h1
      simp
    · rw [if_neg h1]
      by_cases h2 : y1 = y ∧ x1 < w
      · rw [if_pos h2, if_pos ⟨h2.1, by omega⟩]
      · rw [if_neg h2, if_neg (by omega)]

/-- After `h` turns of the outer loop the first `h` rows carry the colour
and every other pixel is as before. -/
theorem fillRows_spec (im : RGBA) (hc : Canvas im) (c : RGBAColor) :
    ∀ h : Nat, h ≤ 400 → Canvas (fillRows im c 600 h) ∧
      ∀ x1 y1 : Nat, x1 < 600 → y1 < 400 →
        (fillRows im c 600 h).RGBAAt (x1 : Int) (y1 : Int)
          = if y1 < h then c else im.RGBAAt (x1 : Int) (y1 : Int) := by
  intro h
  induction h with
  | zero =>
    intro _
    refine ⟨hc, ?_⟩
    intro x1 y1 _ _
    simp [fillRows]
  | succ h ih =>
    intro hh
    obtain ⟨hch, hpix⟩ := ih (by omega)
    rw [fillRows_succ]
    obtain ⟨hc2, hpix2⟩ := fillRow_spec _ hch c h (by omega) 600 (le_refl _)
    refine ⟨hc2, ?_⟩
    intro x1 y1 hx1 hy1
    rw [hpix2 x1 y1 hx1 hy1, hpix x1 y1 hx1 hy1]
    by_cases h1 : y1 = h
    · subst h1
      simp [hx1]
    · rw [if_neg (by omega)]
      by_cases h2 : y1 < h
      · rw [if_pos h2, if_pos (by omega)]
      · rw [if_neg h2, if_neg (by omega)]

/-- The constructor always returns a component and a nil error. -/
theorem New_eq (name : String) (conf : Config) :
    NewTimestampSourceNames name conf
      = (some ⟨name, paintedPicture, conf.NImages, conf, false⟩, none) := by
  unfold NewTimestampSourceNames
  exact Eq.refl _

theorem Canvas_painted : Canvas paintedPicture :=
  (fillRows_spec _ Canvas_NewRGBA blue 400 (le_refl _)).1

/-- Every pixel of the painted picture is blue. -/
theorem painted_blue (x y : Int) (hx0 : 0 ≤ x) (hx : x < 600) (hy0 : 0 ≤ y) (hy : y < 400) :
    paintedPicture.RGBAAt x y = blue := by
  lift x to Nat using hx0
  lift y to Nat using hy0
  have h := (fillRows_spec _ Canvas_NewRGBA blue 400 (le_refl _)).2 x y (by omega) (by omega)
  unfold paintedPicture
  rw [h, if_pos (by omega)]

/-! ## Fixed-width fields of `Format` -/

theorem IsDigit.value_lt {c : Char} (h : IsDigit c) : digitValue c < 10 := by
  obtain ⟨d, hd, rfl⟩ := h
  rw [digitValue_digitChar d hd]
  exact hd

theorem IsDigit.ne_minus {c : Char} (h : IsDigit c) : c ≠ '-' := by
  obtain ⟨d, hd, rfl⟩ := h
  interval_cases d <;> decide

theorem isDigit_zero : IsDigit '0' := ⟨0, by omega, rfl⟩

theorem decimalAux_digits (fuel : Nat) : ∀ (n : Nat) (acc : List Char),
    (∀ c ∈ acc, IsDigit c) → ∀ c ∈ decimalAux fuel n acc, IsDigit c := by
  induction fuel with
  | zero => intro n acc hacc c hc; exact hacc c hc
  | succ fuel ih =>
    intro n acc hacc c hc
    unfold decimalAux at hc
    by_cases hn : n < 10
    · rw [if_pos hn] at hc
      rcases List.mem_cons.mp hc with h | h
      · exact ⟨n, hn, h⟩
      · exact hacc c h
    · rw [if_neg hn] at hc
      refine ih (n / 10) _ ?_ c hc
      intro c1 hc1
      rcases List.mem_cons.mp hc1 with h | h
      · exact ⟨n % 10, by omega, h⟩
      · exact hacc c1 h

theorem decimal_digits (n : Nat) : ∀ c ∈ decimal n, IsDigit c :=
  decimalAux_digits (n + 1) n [] (by simp)

theorem length_decimalAux (w : Nat) : ∀ (fuel n : Nat) (acc : List Char),
    n < fuel → n < 10 ^ (w + 1) → (decimalAux fuel n acc).length ≤ w + 1 + acc.length := by
  induction w with
  | zero =>
    intro fuel n acc hf hn
    cases fuel with
    | zero => omega
    | succ fuel =>
      unfold decimalAux
      rw [if_pos (by simpa using hn)]
      simp only [List.length_cons]
      omega
  | succ w ih =>
    intro fuel n acc hf hn
    cases fuel with
    | zero => omega
    | succ fuel =>
      unfold decimalAux
      by_cases h10 : n < 10
      · rw [if_pos h10]
        simp only [List.length_cons]
        omega
      · rw [if_neg h10]
        have h1 : n / 10 < 10 ^ (w + 1) := by
          rw [Nat.div_lt_iff_lt_mul (by omega)]
          rw [pow_succ] at hn
          exact hn
        have := ih fuel (n / 10) (digitChar (n % 10) :: acc) (by omega) h1
        simp only [List.length_cons] at this
        omega

theorem length_decimal_le (n w : Nat) (hw : 1 ≤ w) (hn : n < 10 ^ w) :
    (decimal n).length ≤ w := by
  obtain ⟨v, rfl⟩ : ∃ v, w = v + 1 := ⟨w - 1, by omega⟩
  have := length_decimalAux v (n + 1) n [] (by omega) hn
  simpa [decimal] using this

theorem digitsValue_append (a b : List Char) :
    digitsValue (a ++ b) = digitsValue a * 10 ^ b.length + digitsValue b := by
  unfold digitsValue
  rw [List.foldl_append]
  generalize List.foldl (fun a c => 10 * a + digitValue c) 0 a = v
  induction b generalizing v with
  | nil => simp
  | cons c b ih =>
    simp only [List.foldl_cons, List.length_cons]
    rw [ih (10 * v + digitValue c), ih (10 * 0 + digitValue c)]
    ring

theorem digitsValue_lt (l : List Char) (h : ∀ c ∈ l, IsDigit c) :
    digitsValue l < 10 ^ l.length := by
  induction l using List.reverseRecOn with
  | nil => simp [digitsValue]
  | append_singleton l c ih =>
    rw [digitsValue_append]
    have h1 := ih (fun c hc => h c (List.mem_append_left _ hc))
    have h2 : digitValue c < 10 := (h c (by simp)).value_lt
    have h3 : digitsValue [c] = digitValue c := by simp [digitsValue]
    rw [h3]
    simp only [List.length_append, List.length_singleton, pow_succ, pow_zero, one_mul]
    omega

theorem digitsValue_zeros (k : Nat) : digitsValue (List.replicate k '0') = 0 := by
  induction k with
  | zero => rfl
  | succ k ih =>
    rw [List.replicate_succ', digitsValue_append, ih]
    rfl

/-- A field of `w` places: the rendering of a number below `10 ^ w`. -/
theorem appendInt_field (x : Int) (w : Nat) (hw : 1 ≤ w) (h0 : 0 ≤ x) (hx : x < 10 ^ w) :
    (appendInt x w).length = w ∧ digitsValue (appendInt x w) = x.natAbs ∧
      ∀ c ∈ appendInt x w, IsDigit c := by
  have hn : x.natAbs < 10 ^ w := by
    have : (x.natAbs : Int) < ((10 ^ w : Nat) : Int) := by
      rw [Int.natAbs_of_nonneg h0]; exact_mod_cast hx
    exact_mod_cast this
  have hl := length_decimal_le x.natAbs w hw hn
  unfold appendInt
  simp only [if_neg (not_lt.mpr h0), List.nil_append]
  refine ⟨by simp; omega, ?_, ?_⟩
  · rw [digitsValue_append, digitsValue_zeros, digitsValue_decimal]
    simp
  · intro c hc
    rcases List.mem_append.mp hc with h | h
    · rw [List.eq_of_mem_replicate h]
      exact isDigit_zero
    · exact decimal_digits _ c h

/-- Two fields of the same width with the same bytes hold the same number. -/
theorem appendInt_field_inj (x y : Int) (w : Nat) (hw : 1 ≤ w)
    (hx0 : 0 ≤ x) (hx : x < 10 ^ w) (hy0 : 0 ≤ y) (hy : y < 10 ^ w)
    (h : appendInt x w = appendInt y w) : x = y := by
  have h1 := (appendInt_field x w hw hx0 hx).2.1
  have h2 := (appendInt_field y w hw hy0 hy).2.1
  rw [h] at h1
  have : x.natAbs = y.natAbs := by rw [← h1, ← h2]
  omega

/-- The year field determines the year, whatever its sign and size. -/
theorem appendInt_inj (x y : Int) (w : Nat) (h : appendInt x w = appendInt y w) : x = y := by
  have key : ∀ z : Int, 0 ≤ z →
      ∃ l, appendInt z w = l ∧ digitsValue l = z.natAbs ∧ ∀ c ∈ l, IsDigit c := by
    intro z hz
    refine ⟨_, rfl, ?_, ?_⟩
    · unfold appendInt
      simp only [if_neg (not_lt.mpr hz), List.nil_append]
      rw [digitsValue_append, digitsValue_zeros, digitsValue_decimal]
      simp
    · unfold appendInt
      simp only [if_neg (not_lt.mpr hz), List.nil_append]
      intro c hc
      rcases List.mem_append.mp hc with h | h
      · rw [List.eq_of_mem_replicate h]
        exact isDigit_zero
      · exact decimal_digits _ c h
  have neg : ∀ z : Int, z < 0 → appendInt z w = '-' :: appendInt (-z) w := by
    intro z hz
    unfold appendInt
    simp [hz, not_lt.mpr (show (0 : Int) ≤ -z by omega)]
  rcases lt_or_le x 0 with hx | hx <;> rcases lt_or_le y 0 with hy | hy
  · rw [neg x hx, neg y hy] at h
    obtain ⟨l1, e1, v1, _⟩ := key (-x) (by omega)
    obtain ⟨l2, e2, v2, _⟩ := key (-y) (by omega)
    have hl : l1 = l2 := by rw [← e1, ← e2]; exact List.tail_eq_of_cons_eq h
    have : (-x).natAbs = (-y).natAbs := by rw [← v1, ← v2, hl]
    omega
  · rw [neg x hx] at h
    obtain ⟨l2, e2, _, d2⟩ := key y hy
    have hm : '-' ∈ l2 := by rw [← e2, ← h]; exact List.mem_cons_self _ _
    exact absurd rfl (d2 _ hm).ne_minus
  · rw [neg y hy] at h
    obtain ⟨l1, e1, _, d1⟩ := key x hx
    have hm : '-' ∈ l1 := by rw [← e1, h]; exact List.mem_cons_self _ _
    exact absurd rfl (d1 _ hm).ne_minus
  · obtain ⟨l1, e1, v1, _⟩ := key x hx
    obtain ⟨l2, e2, v2, _⟩ := key y hy
    have hl : l1 = l2 := by rw [← e1, ← e2]; exact h
    have : x.natAbs = y.natAbs := by rw [← v1, ← v2, hl]
    omega

/-! ## The calendar -/

/-- The cycle counts of `yearDay`, with the day count they add up to, the
year and the range of the day of the year. -/
theorem yearDay_cycles (days : Int) :
    ∃ n400 n100 n4 n1 yday : Int,
      yearDay days = (400 * n400 + 100 * n100 + 4 * n4 + n1 + 1, yday) ∧
      days = 146097 * n400 + 36524 * n100 + 1461 * n4 + 365 * n1 + yday ∧
      0 ≤ n100 ∧ n100 ≤ 3 ∧ 0 ≤ n4 ∧ n4 ≤ 24 ∧ 0 ≤ n1 ∧ n1 ≤ 3 ∧ 0 ≤ yday ∧
      (yday ≤ 364 ∨ (yday = 365 ∧ n1 = 3 ∧ (n4 ≤ 23 ∨ n100 = 3))) ∧
      (n4 = 24 → n1 = 3 → n100 ≤ 2 → yday ≤ 364) := by
  obtain ⟨n400, h400⟩ : ∃ n400, n400 = days / 146097 := ⟨_, rfl⟩
  obtain ⟨d1, hd1⟩ : ∃ d1, d1 = days - 146097 * n400 := ⟨_, rfl⟩
  obtain ⟨c100, hc100⟩ : ∃ c100, c100 = d1 / 36524 := ⟨_, rfl⟩
  obtain ⟨n100, hn100⟩ : ∃ n100, n100 = c100 - c100 / 4 := ⟨_, rfl⟩
  obtain ⟨d2, hd2⟩ : ∃ d2, d2 = d1 - 36524 * n100 := ⟨_, rfl⟩
  obtain ⟨n4, hn4⟩ : ∃ n4, n4 = d2 / 1461 := ⟨_, rfl⟩
  obtain ⟨d3, hd3⟩ : ∃ d3, d3 = d2 - 1461 * n4 := ⟨_, rfl⟩
  obtain ⟨c1, hc1⟩ : ∃ c1, c1 = d3 / 365 := ⟨_, rfl⟩
  obtain ⟨n1, hn1⟩ : ∃ n1, n1 = c1 - c1 / 4 := ⟨_, rfl⟩
  refine ⟨n400, n100, n4, n1, d3 - 365 * n1, ?_, ?_⟩
  · simp only [yearDay]
    rw [← h400, ← hd1, ← hc100, ← hn100, ← hd2, ← hn4, ← hd3, ← hc1, ← hn1]
  · have b1 : 0 ≤ d1 ∧ d1 ≤ 146096 := by omega
    have b2 : 0 ≤ c100 ∧ c100 ≤ 4 := by omega
    have b3 : 0 ≤ n100 ∧ n100 ≤ 3 := by omega
    have b4 : 0 ≤ d2 ∧ d2 ≤ 36524 := by omega
    have b5 : 0 ≤ n4 ∧ n4 ≤ 24 := by omega
    have b6 : 0 ≤ d3 ∧ d3 ≤ 1460 := by omega
    have b7 : 0 ≤ c1 ∧ c1 ≤ 4 := by omega
    have b8 : 0 ≤ n1 ∧ n1 ≤ 3 := by omega
    refine ⟨by omega, by omega, by omega, by omega, by omega, by omega, by omega, by omega,
      ?_, ?_⟩
    · omega
    · omega

/-- The year and the day of the year determine the day count. -/
theorem yearDay_inj (a b : Int) (h : yearDay a = yearDay b) : a = b := by
  obtain ⟨p400, p100, p4, p1, py, pe, pd, _, _, _, _, _, _, _, _, _⟩ := yearDay_cycles a
  obtain ⟨q400, q100, q4, q1, qy, qe, qd, _, _, _, _, _, _, _, _, _⟩ := yearDay_cycles b
  rw [pe, qe] at h
  have hy := congrArg Prod.fst h
  have hd := congrArg Prod.snd h
  simp only at hy hd
  have e1 : p1 = q1 := by omega
  have e4 : p4 = q4 := by omega
  have e100 : p100 = q100 := by omega
  omega

/-- The leap years in terms of the cycle counts. -/
theorem yearDay_leap (days : Int) :
    0 ≤ (yearDay days).2 ∧
      (yearDay days).2 ≤ 364 + (if isLeap (yearDay days).1 then 1 else 0) := by
  obtain ⟨n400, n100, n4, n1, y, e, _, _, _, _, _, _, _, hy0, hy, hy2⟩ := yearDay_cycles days
  rw [e]
  refine ⟨hy0, ?_⟩
  simp only [isLeap]
  split_ifs with hl
  · omega
  · simp only [Bool.and_eq_true, Bool.or_eq_true, decide_eq_true_eq, not_and, not_or] at hl
    rcases hy with h | ⟨h1, h2, h3⟩
    · omega
    · exfalso
      have l4 : (400 * n400 + 100 * n100 + 4 * n4 + n1 + 1) % 4 = 0 := by omega
      have := hl l4
      omega

theorem monthEstimate_spec (day : Int) (hd0 : 0 ≤ day) (hd1 : day ≤ 364) :
    daysBefore.getD ((monthEstimate day).1 - 1).toNat 0 + (monthEstimate day).2 - 1 = day ∧
      1 ≤ (monthEstimate day).1 ∧ (monthEstimate day).1 ≤ 12 ∧
      1 ≤ (monthEstimate day).2 ∧ (monthEstimate day).2 ≤ 31 ∧
      ((monthEstimate day).1 ≤ 2 ↔ day ≤ 58) := by
  unfold monthEstimate
  obtain ⟨k, hk⟩ : ∃ k, k = day / 31 := ⟨_, rfl⟩
  have hkb : 0 ≤ k ∧ k ≤ 11 := by omega
  obtain ⟨hk0, hk11⟩ := hkb
  simp only [← hk]
  interval_cases k <;> simp [daysBefore] <;> split_ifs <;> simp <;> omega

/-- The month and the day of the month determine the day of the year, and
they are a month and a day. -/
theorem monthDay_spec (leap : Bool) (yday : Int) (h0 : 0 ≤ yday)
    (h1 : yday ≤ 364 + (if leap then 1 else 0)) :
    ydayOf leap (monthDay leap yday).1 (monthDay leap yday).2 = yday ∧
      1 ≤ (monthDay leap yday).1 ∧ (monthDay leap yday).1 ≤ 12 ∧
      1 ≤ (monthDay leap yday).2 ∧ (monthDay leap yday).2 ≤ 31 := by
  unfold monthDay ydayOf
  cases leap with
  | false =>
    simp only [Bool.false_and, if_false, Bool.false_eq_true] at h1 ⊢
    obtain ⟨e, m1, m12, d1, d31, _⟩ := monthEstimate_spec yday h0 (by omega)
    exact ⟨by omega, m1, m12, d1, d31⟩
  | true =>
    simp only [Bool.true_and, if_true, decide_eq_true_eq] at h1 ⊢
    by_cases h59 : yday = 59
    · subst h59
      simp [daysBefore]
    · rw [if_neg h59]
      by_cases hgt : yday > 59
      · rw [if_pos hgt]
        obtain ⟨e, m1, m12, d1, d31, hm⟩ := monthEstimate_spec (yday - 1) (by omega) (by omega)
        have : ¬ (monthEstimate (yday - 1)).1 ≤ 2 := by rw [hm]; omega
        rw [if_pos (by omega)]
        exact ⟨by omega, m1, m12, d1, d31⟩
      · rw [if_neg hgt]
        obtain ⟨e, m1, m12, d1, d31, hm⟩ := monthEstimate_spec yday h0 (by omega)
        have : (monthEstimate yday).1 ≤ 2 := by rw [hm]; omega
        rw [if_neg (by omega)]
        exact ⟨by omega, m1, m12, d1, d31⟩

/-- Month and day are within the calendar. -/
theorem absDate_range (days : Int) :
    1 ≤ (absDate days).2.1 ∧ (absDate days).2.1 ≤ 12 ∧
      1 ≤ (absDate days).2.2 ∧ (absDate days).2.2 ≤ 31 := by
  obtain ⟨h0, h1⟩ := yearDay_leap days
  exact (monthDay_spec _ _ h0 h1).2

/-- The date determines the day count. -/
theorem absDate_inj (a b : Int) (h : absDate a = absDate b) : a = b := by
  obtain ⟨a0, a1⟩ := yearDay_leap a
  obtain ⟨b0, b1⟩ := yearDay_leap b
  have ha := (monthDay_spec _ _ a0 a1).1
  have hb := (monthDay_spec _ _ b0 b1).1
  unfold absDate at h
  simp only [Prod.mk.injEq] at h
  obtain ⟨hy, hm, hd⟩ := h
  rw [hy] at hm hd
  rw [hy, hm, hd, hb] at ha
  exact yearDay_inj a b (Prod.ext hy ha.symm)

/-! ## `Format` at the layout of the module -/

/-- The fraction field: a dot and three digits, the milliseconds. -/
theorem appendNano_millis (n : Nat) (hn : n < 1000000000) :
    ∃ l, appendNano n 3 = '.' :: l ∧ l.length = 3 ∧ digitsValue l = n / 1000000 ∧
      ∀ c ∈ l, IsDigit c := by
  obtain ⟨hlen, hval, hdig⟩ := appendInt_field (n : Int) 9 (by omega) (by omega)
    (by exact_mod_cast hn)
  refine ⟨(appendInt (n : Int) 9).take 3, rfl, by simp [hlen], ?_,
    fun c hc => hdig c (List.mem_of_mem_take hc)⟩
  have hsplit := List.take_append_drop 3 (appendInt (n : Int) 9)
  have hv : digitsValue ((appendInt (n : Int) 9).take 3 ++ (appendInt (n : Int) 9).drop 3)
      = n := by rw [hsplit, hval]; simp
  rw [digitsValue_append] at hv
  have hdl : ((appendInt (n : Int) 9).drop 3).length = 6 := by simp [hlen]
  have hlt := digitsValue_lt ((appendInt (n : Int) 9).drop 3)
    (fun c hc => hdig c (List.mem_of_mem_drop hc))
  rw [hdl] at hv hlt
  omega

/-- The bytes of a formatted instant, field by field. -/
theorem Format_data (t : Time) :
    (t.Format timestampChunks).data
      = appendInt (absDate (t.abs / 86400)).1 4 ++
        ('-' :: (appendInt (absDate (t.abs / 86400)).2.1 2 ++
        ('-' :: (appendInt (absDate (t.abs / 86400)).2.2 2 ++
        ('T' :: (appendInt (t.abs % 86400 / 3600) 2 ++
        (':' :: (appendInt (t.abs % 86400 % 3600 / 60) 2 ++
        (':' :: (appendInt (t.abs % 86400 % 60) 2 ++
        (appendNano t.nsec.val 3 ++ appendZone t.offset))))))))))) := by
  simp [Time.Format, timestampChunks, Time.appendChunk, List.append_assoc]

theorem field_step {c : Char} {a1 a2 r1 r2 : List Char}
    (h : c :: (a1 ++ r1) = c :: (a2 ++ r2)) (hl : a1.length = a2.length) :
    a1 = a2 ∧ r1 = r2 :=
  List.append_inj (List.tail_eq_of_cons_eq h) hl

/-! ## Reading a formatted instant from the left -/

theorem decimalAux_ne_nil (fuel : Nat) : ∀ (n : Nat) (acc : List Char),
    acc ≠ [] → decimalAux fuel n acc ≠ [] := by
  induction fuel with
  | zero => intro n acc h; exact h
  | succ fuel ih =>
    intro n acc _
    unfold decimalAux
    split
    · exact List.cons_ne_nil _ _
    · exact ih _ _ (List.cons_ne_nil _ _)

theorem decimal_ne_nil (n : Nat) : decimal n ≠ [] := by
  unfold decimal decimalAux
  split
  · exact List.cons_ne_nil _ _
  · exact decimalAux_ne_nil _ _ _ (List.cons_ne_nil _ _)

/-- Two runs of digits that end at a hyphen are the same run. -/
theorem digits_split : ∀ (a b r1 r2 : List Char), (∀ c ∈ a, IsDigit c) → (∀ c ∈ b, IsDigit c) →
    a ++ '-' :: r1 = b ++ '-' :: r2 → a = b ∧ r1 = r2 := by
  intro a
  induction a with
  | nil =>
    intro b r1 r2 _ hb h
    cases b with
    | nil => exact ⟨rfl, List.tail_eq_of_cons_eq h⟩
    | cons c b =>
      have hc : '-' = c := List.head_eq_of_cons_eq h
      exact absurd hc.symm (hb c (List.mem_cons_self _ _)).ne_minus
  | cons c a ih =>
    intro b r1 r2 ha hb h
    cases b with
    | nil =>
      have hc : c = '-' := List.head_eq_of_cons_eq h
      exact absurd hc (ha c (List.mem_cons_self _ _)).ne_minus
    | cons d b =>
      have hcd : c = d := List.head_eq_of_cons_eq h
      have ht : a ++ '-' :: r1 = b ++ '-' :: r2 := List.tail_eq_of_cons_eq h
      obtain ⟨e1, e2⟩ := ih b r1 r2 (fun x hx => ha x (List.mem_cons_of_mem _ hx))
        (fun x hx => hb x (List.mem_cons_of_mem _ hx)) ht
      exact ⟨by rw [hcd, e1], e2⟩

/-- The digits of a field, without the sign. -/
theorem appendInt_body (z : Int) (w : Nat) :
    ∃ l, l ≠ [] ∧ (∀ c ∈ l, IsDigit c) ∧
      appendInt z w = (if z < 0 then ['-'] else []) ++ l := by
  refine ⟨List.replicate (w - (decimal z.natAbs).length) '0' ++ decimal z.natAbs, ?_, ?_, rfl⟩
  · intro h
    exact decimal_ne_nil _ (List.append_eq_nil.mp h).2
  · intro c hc
    rcases List.mem_append.mp hc with h | h
    · rw [List.eq_of_mem_replicate h]
      exact isDigit_zero
    · exact decimal_digits _ c h

/-- The year field ends at the first hyphen after its sign. -/
theorem year_split (x y : Int) (w : Nat) (r1 r2 : List Char)
    (h : appendInt x w ++ '-' :: r1 = appendInt y w ++ '-' :: r2) :
    appendInt x w = appendInt y w ∧ r1 = r2 := by
  obtain ⟨lx, nx, dx, ex⟩ := appendInt_body x w
  obtain ⟨ly, ny, dy, ey⟩ := appendInt_body y w
  rw [ex, ey] at h ⊢
  by_cases hx : x < 0 <;> by_cases hy : y < 0
  · simp only [if_pos hx, if_pos hy, List.singleton_append, List.cons_append] at h ⊢
    obtain ⟨e1, e2⟩ := digits_split lx ly r1 r2 dx dy (List.tail_eq_of_cons_eq h)
    exact ⟨by rw [e1], e2⟩
  · simp only [if_pos hx, if_neg hy, List.singleton_append, List.cons_append,
      List.nil_append] at h
    cases ly with
    | nil => exact absurd rfl ny
    | cons c ly =>
      have hc : '-' = c := List.head_eq_of_cons_eq h
      exact absurd hc.symm (dy c (List.mem_cons_self _ _)).ne_minus
  · simp only [if_neg hx, if_pos hy, List.singleton_append, List.cons_append,
      List.nil_append] at h
    cases lx with
    | nil => exact absurd rfl nx
    | cons c lx =>
      have hc : c = '-' := List.head_eq_of_cons_eq h
      exact absurd hc (dx c (List.mem_cons_self _ _)).ne_minus
  · simp only [if_neg hx, if_neg hy, List.nil_append] at h ⊢
    exact digits_split lx ly r1 r2 dx dy h

/-- Two instants that format alike show the same second and millisecond on
the clock of their zone, and their zones are written alike. -/
theorem Format_fields (t1 t2 : Time)
    (h : t1.Format timestampChunks = t2.Format timestampChunks) :
    t1.abs = t2.abs ∧ t1.nsec.val / 1000000 = t2.nsec.val / 1000000 ∧
      appendZone t1.offset = appendZone t2.offset := by
  have hd := congrArg String.data h
  rw [Format_data, Format_data] at hd
  obtain ⟨m1a, m1b, d1a, d1b⟩ := absDate_range (t1.abs / 86400)
  obtain ⟨m2a, m2b, d2a, d2b⟩ := absDate_range (t2.abs / 86400)
  obtain ⟨n1, e1, l1, v1, _⟩ := appendNano_millis t1.nsec.val t1.nsec.isLt
  obtain ⟨n2, e2, l2, v2, _⟩ := appendNano_millis t2.nsec.val t2.nsec.isLt
  have fM1 := appendInt_field (absDate (t1.abs / 86400)).2.1 2 (by omega) (by omega) (by omega)
  have fM2 := appendInt_field (absDate (t2.abs / 86400)).2.1 2 (by omega) (by omega) (by omega)
  have fD1 := appendInt_field (absDate (t1.abs / 86400)).2.2 2 (by omega) (by omega) (by omega)
  have fD2 := appendInt_field (absDate (t2.abs / 86400)).2.2 2 (by omega) (by omega) (by omega)
  have fh1 := appendInt_field (t1.abs % 86400 / 3600) 2 (by omega) (by omega) (by omega)
  have fh2 := appendInt_field (t2.abs % 86400 / 3600) 2 (by omega) (by omega) (by omega)
  have fm1 := appendInt_field (t1.abs % 86400 % 3600 / 60) 2 (by omega) (by omega) (by omega)
  have fm2 := appendInt_field (t2.abs % 86400 % 3600 / 60) 2 (by omega) (by omega) (by omega)
  have fs1 := appendInt_field (t1.abs % 86400 % 60) 2 (by omega) (by omega) (by omega)
  have fs2 := appendInt_field (t2.abs % 86400 % 60) 2 (by omega) (by omega) (by omega)
  obtain ⟨hY, hT⟩ := year_split _ _ 4 _ _ hd
  obtain ⟨hM, hT⟩ := List.append_inj hT (by rw [fM1.1, fM2.1])
  obtain ⟨hD, hT⟩ := field_step hT (by rw [fD1.1, fD2.1])
  obtain ⟨hh, hT⟩ := field_step hT (by rw [fh1.1, fh2.1])
  obtain ⟨hm, hT⟩ := field_step hT (by rw [fm1.1, fm2.1])
  obtain ⟨hs, hT⟩ := field_step hT (by rw [fs1.1, fs2.1])
  obtain ⟨hN, hZ⟩ := List.append_inj hT (by rw [e1, e2]; simp [l1, l2])
  rw [e1, e2] at hN
  have hn : n1 = n2 := List.tail_eq_of_cons_eq hN
  have eY := appendInt_inj _ _ 4 hY
  have eM := appendInt_field_inj _ _ 2 (by omega) (by omega) (by omega) (by omega) (by omega) hM
  have eD := appendInt_field_inj _ _ 2 (by omega) (by omega) (by omega) (by omega) (by omega) hD
  have eh := appendInt_field_inj _ _ 2 (by omega) (by omega) (by omega) (by omega) (by omega) hh
  have em := appendInt_field_inj _ _ 2 (by omega) (by omega) (by omega) (by omega) (by omega) hm
  have es := appendInt_field_inj _ _ 2 (by omega) (by omega) (by omega) (by omega) (by omega) hs
  have edays : t1.abs / 86400 = t2.abs / 86400 :=
    absDate_inj _ _ (Prod.ext eY (Prod.ext eM eD))
  refine ⟨by omega, ?_, hZ⟩
  rw [← v1, ← v2, hn]

/-! ## Instants that format alike -/

theorem digit_eq {c d : Char} (hc : IsDigit c) (hd : IsDigit d)
    (h : digitValue c = digitValue d) : c = d := by
  obtain ⟨x, hx, rfl⟩ := hc
  obtain ⟨y, hy, rfl⟩ := hd
  rw [digitValue_digitChar x hx, digitValue_digitChar y hy] at h
  rw [h]

theorem digits3_eq (a b : List Char) (la : a.length = 3) (lb : b.length = 3)
    (da : ∀ c ∈ a, IsDigit c) (db : ∀ c ∈ b, IsDigit c)
    (h : digitsValue a = digitsValue b) : a = b := by
  match a, la, b, lb with
  | [a0, a1, a2], _, [b0, b1, b2], _ =>
    have ha0 := da a0 (by simp)
    have ha1 := da a1 (by simp)
    have ha2 := da a2 (by simp)
    have hb0 := db b0 (by simp)
    have hb1 := db b1 (by simp)
    have hb2 := db b2 (by simp)
    have va0 := ha0.value_lt
    have va1 := ha1.value_lt
    have va2 := ha2.value_lt
    have vb0 := hb0.value_lt
    have vb1 := hb1.value_lt
    have vb2 := hb2.value_lt
    simp only [digitsValue, List.foldl_cons, List.foldl_nil] at h
    rw [digit_eq ha0 hb0 (by omega), digit_eq ha1 hb1 (by omega), digit_eq ha2 hb2 (by omega)]

/-- The fraction field depends on the millisecond alone. -/
theorem appendNano_congr (n1 n2 : Nat) (h1 : n1 < 1000000000) (h2 : n2 < 1000000000)
    (h : n1 / 1000000 = n2 / 1000000) : appendNano n1 3 = appendNano n2 3 := by
  obtain ⟨l1, e1, len1, v1, d1⟩ := appendNano_millis n1 h1
  obtain ⟨l2, e2, len2, v2, d2⟩ := appendNano_millis n2 h2
  rw [e1, e2, digits3_eq l1 l2 len1 len2 d1 d2 (by rw [v1, v2, h])]

/-- Two instants format alike exactly when they show the same second and
millisecond on the clock of their zone and their zones are written alike. -/
theorem Format_eq_iff (t1 t2 : Time) :
    t1.Format timestampChunks = t2.Format timestampChunks ↔
      t1.abs = t2.abs ∧ t1.nsec.val / 1000000 = t2.nsec.val / 1000000 ∧
        appendZone t1.offset = appendZone t2.offset := by
  constructor
  · exact Format_fields t1 t2
  · rintro ⟨ha, hn, hz⟩
    apply String.ext
    rw [Format_data, Format_data, ha, hz,
      appendNano_congr _ _ t1.nsec.isLt t2.nsec.isLt hn]


/-! ## The zone field -/

/-- The zone field of an offset that is not zero, with flooring division on
the minutes, which are not negative. -/
theorem appendZone_of_ne_zero (o : Int) (h : o ≠ 0) :
    ∃ z : Int, 0 ≤ z ∧ (Int.tdiv o 60 < 0 → z = -Int.tdiv o 60) ∧
      (¬ Int.tdiv o 60 < 0 → z = Int.tdiv o 60) ∧
      appendZone o = (if Int.tdiv o 60 < 0 then '-' else '+') ::
        (appendInt (z / 60) 2 ++ ':' :: appendInt (z % 60) 2) := by
  unfold appendZone
  rw [if_neg h]
  by_cases hz : Int.tdiv o 60 < 0
  · refine ⟨-Int.tdiv o 60, by omega, fun _ => rfl, fun h2 => absurd hz h2, ?_⟩
    simp only [if_pos hz]
    rw [Int.tdiv_eq_ediv (by omega) (by omega), Int.tmod_eq_emod (by omega) (by omega)]
  · refine ⟨Int.tdiv o 60, by omega, fun h2 => absurd h2 hz, fun _ => rfl, ?_⟩
    simp only [if_neg hz]
    rw [Int.tdiv_eq_ediv (by omega) (by omega), Int.tmod_eq_emod (by omega) (by omega)]

/-- Zones of whole minutes that are written alike have the same offset. -/
theorem appendZone_inj_of_minutes (o1 o2 : Int) (h1 : o1 % 60 = 0) (h2 : o2 % 60 = 0)
    (h : appendZone o1 = appendZone o2) : o1 = o2 := by
  have t1 : Int.tdiv o1 60 = o1 / 60 := Int.tdiv_eq_ediv_of_dvd (Int.dvd_of_emod_eq_zero h1)
  have t2 : Int.tdiv o2 60 = o2 / 60 := Int.tdiv_eq_ediv_of_dvd (Int.dvd_of_emod_eq_zero h2)
  by_cases z1 : o1 = 0 <;> by_cases z2 : o2 = 0
  · rw [z1, z2]
  · obtain ⟨z, _, _, _, e⟩ := appendZone_of_ne_zero o2 z2
    rw [e, z1] at h
    have hc := List.head_eq_of_cons_eq h
    split at hc <;> exact absurd hc (by decide)
  · obtain ⟨z, _, _, _, e⟩ := appendZone_of_ne_zero o1 z1
    rw [e, z2] at h
    have hc := List.head_eq_of_cons_eq h
    split at hc <;> exact absurd hc (by decide)
  · obtain ⟨a, a0, an, ap, ea⟩ := appendZone_of_ne_zero o1 z1
    obtain ⟨b, b0, bn, bp, eb⟩ := appendZone_of_ne_zero o2 z2
    rw [ea, eb] at h
    have hc := List.head_eq_of_cons_eq h
    have ht := List.tail_eq_of_cons_eq h
    have fa := appendInt_field (a % 60) 2 (by omega) (by omega) (by omega)
    have fb := appendInt_field (b % 60) 2 (by omega) (by omega) (by omega)
    obtain ⟨hA, hB⟩ := List.append_inj' ht (by simp [fa.1, fb.1])
    have eA := appendInt_inj _ _ 2 hA
    have eB := appendInt_inj _ _ 2 (List.tail_eq_of_cons_eq hB)
    have eab : a = b := by omega
    by_cases s1 : Int.tdiv o1 60 < 0 <;> by_cases s2 : Int.tdiv o2 60 < 0
    · have := an s1; have := bn s2; omega
    · rw [if_pos s1, if_neg s2] at hc
      exact absurd hc (by decide)
    · rw [if_neg s1, if_pos s2] at hc
      exact absurd hc (by decide)
    · have := ap s1; have := bp s2; omega

/-- Instants at least a millisecond apart fall in different milliseconds. -/
theorem UnixMilli_ne_of_apart (t1 t2 : Time)
    (h : 1000000 ≤ t2.UnixNano - t1.UnixNano ∨ 1000000 ≤ t1.UnixNano - t2.UnixNano) :
    t1.UnixMilli ≠ t2.UnixMilli := by
  have b1 := t1.nsec.isLt
  have b2 := t2.nsec.isLt
  unfold Time.UnixNano at h
  unfold Time.UnixMilli
  omega

theorem digitChar_eq (d : Nat) (h : d < 10) : digitChar d = Nat.digitChar d := by
  interval_cases d <;> rfl

theorem decimalAux_eq_toDigitsCore (fuel : Nat) : ∀ (n : Nat) (acc : List Char),
    decimalAux fuel n acc = Nat.toDigitsCore 10 fuel n acc := by
  induction fuel with
  | zero => intro n acc; rfl
  | succ fuel ih =>
    intro n acc
    unfold decimalAux Nat.toDigitsCore
    by_cases hn : n < 10
    · have h0 : n / 10 = 0 := by omega
      have hm : n % 10 = n := by omega
      simp only [if_pos hn, h0, hm, if_true]
      rw [digitChar_eq n hn]
    · have h0 : ¬ n / 10 = 0 := by omega
      simp only [if_neg hn, h0, if_false]
      rw [ih, digitChar_eq (n % 10) (by omega)]

/-- The rendering is the decimal rendering of the standard library. -/
theorem decimal_eq_repr (n : Nat) : String.mk (decimal n) = Nat.repr n := by
  unfold decimal Nat.repr Nat.toDigits
  rw [decimalAux_eq_toDigitsCore]
  rfl

/-! # The claims -/

/-- Calls leave the picture and the count of a component as they were. -/
theorem run_fields (calls : List Call) : ∀ s : timeStampSourceNameTimestampSourceNames,
    (run s calls).bluePic = s.bluePic ∧ (run s calls).nImages = s.nImages := by
  induction calls with
  | nil => intro s; exact ⟨rfl, rfl⟩
  | cons c rest ih =>
    intro s
    have hs : (step s c).bluePic = s.bluePic ∧ (step s c).nImages = s.nImages := by
      cases c <;> exact ⟨rfl, rfl⟩
    have h := ih (step s c)
    unfold run at h ⊢
    rw [List.foldl_cons]
    exact ⟨h.1.trans hs.1, h.2.trans hs.2⟩

/-- The labels of the closed form. -/
theorem map_SourceName_batch (s : timeStampSourceNameTimestampSourceNames) (now : Time) :
    (batch s now).map (fun e => e.SourceName)
      = (List.range s.nImages.toNat).map
          (fun (i : Nat) => now.Format timestampChunks ++ "_" ++ Nat.repr i) := by
  unfold batch
  rw [List.map_map]
  apply List.map_congr_left
  intro i _
  simp [sourceName, formatInt_natCast, decimal_eq_repr]

/-- The labels of a response, by its own length. -/
theorem map_SourceName_ret (rt : Runtime) (s : timeStampSourceNameTimestampSourceNames)
    (now : Time) (res : List NamedImage) (meta : ResponseMetadata) (err : Option GoError)
    (h : Images rt s now = Outcome.ret (res, meta, err)) :
    res.map (fun e => e.SourceName)
      = (List.range res.length).map
          (fun (i : Nat) => now.Format timestampChunks ++ "_" ++ Nat.repr i) := by
  obtain ⟨_, _, hres, _, _⟩ := Images_ret rt s now res meta err h
  rw [hres, map_SourceName_batch]
  simp [batch]

/-- The response on a count within the limits, with the timestamp named. -/
theorem labels_of_fits (rt : Runtime) (s : timeStampSourceNameTimestampSourceNames)
    (now : Time) (T : String) (h0 : 0 ≤ s.nImages)
    (hfit : (rt.elemSize : Int) * s.nImages ≤ (rt.maxAlloc : Int))
    (hT : now.Format timestampChunks = T) :
    ∃ res meta, Images rt s now = Outcome.ret (res, meta, none) ∧
      res.map (fun e => e.SourceName)
        = (List.range s.nImages.toNat).map (fun (i : Nat) => T ++ "_" ++ Nat.repr i) := by
  refine ⟨_, _, Images_of_fits rt s now h0 hfit, ?_⟩
  rw [map_SourceName_batch, hT]

/-- The fields of the component the constructor returns. -/
theorem New_fields (name : String) (conf : Config)
    (s : timeStampSourceNameTimestampSourceNames)
    (h : NewTimestampSourceNames name conf = (some s, none)) :
    s.bluePic = paintedPicture ∧ s.nImages = conf.NImages ∧ s.cfg = conf := by
  rw [New_eq] at h
  obtain ⟨n, pic, k, c, b⟩ := s
  simp only [Prod.mk.injEq, Option.some.injEq, and_true,
    timeStampSourceNameTimestampSourceNames.mk.injEq] at h
  obtain ⟨_, h2, h3, h4, _⟩ := h
  exact ⟨h2.symm, h3.symm, h4.symm⟩

/-- Bounds of a picture of the shape the constructor works on. -/
theorem Canvas_bounds (im : RGBA) (hc : Canvas im) :
    im.Bounds = ⟨⟨0, 0⟩, ⟨600, 400⟩⟩ ∧ im.Bounds.Dx = 600 ∧ im.Bounds.Dy = 400 := by
  unfold RGBA.Bounds
  rw [hc.rect]
  exact ⟨rfl, rfl, rfl⟩

/-- The instant 1970-01-01T00:00:00Z. -/
theorem epoch_Format :
    Time.Format ⟨0, ⟨0, by decide⟩, 0⟩ timestampChunks = "1970-01-01T00:00:00.000Z" := by
  decide

/-- The instant 999999 nanoseconds after 1970-01-01T00:00:00Z. -/
theorem epoch_late_Format :
    Time.Format ⟨0, ⟨999999, by decide⟩, 0⟩ timestampChunks = "1970-01-01T00:00:00.000Z" := by
  decide

/-- Half a minute past the epoch in a zone one minute east. -/
theorem minute_zone_Format :
    Time.Format ⟨30, ⟨0, by decide⟩, 60⟩ timestampChunks = "1970-01-01T00:01:30.000+00:01" := by
  decide

/-- The epoch in a zone a minute and a half east. -/
theorem half_minute_zone_Format :
    Time.Format ⟨0, ⟨0, by decide⟩, 90⟩ timestampChunks = "1970-01-01T00:01:30.000+00:01" := by
  decide

/-- Half a millisecond before the end of daylight saving time of 2026 in a
zone four hours west. -/
theorem summer_Format :
    Time.Format ⟨1793512799, ⟨999500000, by decide⟩, -14400⟩ timestampChunks
      = "2026-11-01T01:59:59.999-04:00" := by
  decide

/-- Half a millisecond after it, in the zone five hours west. -/
theorem winter_Format :
    Time.Format ⟨1793512800, ⟨500000, by decide⟩, -18000⟩ timestampChunks
      = "2026-11-01T01:00:00.000-05:00" := by
  decide

/-- C1, as stated, fails at the count `2 ^ 62` on a 64-bit Linux build: the
count is not negative, yet the allocation panics and no entries are
returned. -/
theorem Images_labels_fails_at_large_count :
    (0 : Int) ≤ 4611686018427387904 ∧
      Images linuxAmd64
          ⟨"cam", paintedPicture, 4611686018427387904, ⟨4611686018427387904⟩, false⟩
          ⟨0, ⟨0, by decide⟩, 0⟩
        = Outcome.panic "makeslice: len out of range" ∧
      ¬ (Images linuxAmd64
          ⟨"cam", paintedPicture, 4611686018427387904, ⟨4611686018427387904⟩, false⟩
          ⟨0, ⟨0, by decide⟩, 0⟩).returns := by
  have h := Images_of_unfit linuxAmd64
    ⟨"cam", paintedPicture, 4611686018427387904, ⟨4611686018427387904⟩, false⟩
    ⟨0, ⟨0, by decide⟩, 0⟩ (Or.inr (by decide))
  refine ⟨by decide, h, ?_⟩
  rintro ⟨a, ha⟩
  rw [h] at ha
  exact Outcome.noConfusion ha

/-- C1, amended. For every component whose image count `k` is not negative
and within the allocation limit of the runtime, and every instant `now`,
`Images` returns `k` entries; the label at position `i` is the formatted
instant, an underscore and the decimal rendering of `i` (`Nat.repr`); so the
labels are the images of `0, 1, ..., k-1` in that order with one timestamp
for all of them, and they are pairwise distinct. -/
theorem Images_labels (rt : Runtime) (s : timeStampSourceNameTimestampSourceNames)
    (now : Time) (hk : 0 ≤ s.nImages)
    (hfit : (rt.elemSize : Int) * s.nImages ≤ (rt.maxAlloc : Int)) :
    ∃ res, Images rt s now = Outcome.ret (res, ⟨now⟩, none) ∧
      (res.length : Int) = s.nImages ∧
      (∀ (i : Nat) (hi : i < res.length), (res.get ⟨i, hi⟩).SourceName
          = now.Format timestampChunks ++ "_" ++ Nat.repr i) ∧
      res.map (fun e => e.SourceName)
        = (List.range s.nImages.toNat).map
            (fun (i : Nat) => now.Format timestampChunks ++ "_" ++ Nat.repr i) ∧
      (res.map (fun e => e.SourceName)).Nodup := by
  refine ⟨batch s now, Images_of_fits rt s now hk hfit, ?_, ?_, map_SourceName_batch s now, ?_⟩
  · simp only [batch, List.length_map, List.length_range]
    omega
  · intro i hi
    simp [batch, sourceName, formatInt_natCast, decimal_eq_repr]
  · rw [map_SourceName_batch]
    refine List.Nodup.map ?_ (List.nodup_range _)
    intro i j hij
    have hd := congrArg String.data hij
    simp only [String.data_append, List.append_cancel_left_eq, ← decimal_eq_repr] at hd
    exact decimal_injective hd

/-- C1, amended, at `k = 3` on a 64-bit Linux build and the instant
1970-01-01T00:00:00Z: the labels are `T_0`, `T_1`, `T_2` for one string `T`. -/
theorem Images_labels_three :
    (0 : Int) ≤ 3 ∧ (linuxAmd64.elemSize : Int) * 3 ≤ (linuxAmd64.maxAlloc : Int) ∧
      ∃ res, Images linuxAmd64 ⟨"cam", paintedPicture, 3, ⟨3⟩, false⟩ ⟨0, ⟨0, by decide⟩, 0⟩
          = Outcome.ret (res, ⟨⟨0, ⟨0, by decide⟩, 0⟩⟩, none) ∧
        res.map (fun e => e.SourceName)
          = ["1970-01-01T00:00:00.000Z_0", "1970-01-01T00:00:00.000Z_1",
             "1970-01-01T00:00:00.000Z_2"] := by
  refine ⟨by decide, by decide, ?_⟩
  obtain ⟨res, h1, _, _, h4, _⟩ :=
    Images_labels linuxAmd64 ⟨"cam", paintedPicture, 3, ⟨3⟩, false⟩ ⟨0, ⟨0, by decide⟩, 0⟩
      (by decide) (by decide)
  refine ⟨res, h1, ?_⟩
  rw [h4, epoch_Format]
  decide

/-- C2, as stated, fails at both ends on a 64-bit Linux build: the
constructor accepts `n_images = -1` and `n_images = 2 ^ 62`, the second of
which `Validate` accepts too, and `Images` panics on either component. -/
theorem Images_count_fails :
    (∃ s, NewTimestampSourceNames "foo" ⟨-1⟩ = (some s, none) ∧
        Images linuxAmd64 s ⟨0, ⟨0, by decide⟩, 0⟩
          = Outcome.panic "makeslice: len out of range") ∧
      (∃ s, NewTimestampSourceNames "foo" ⟨4611686018427387904⟩ = (some s, none) ∧
        (Config.Validate ⟨4611686018427387904⟩ "components.0").2.2 = none ∧
        Images linuxAmd64 s ⟨0, ⟨0, by decide⟩, 0⟩
          = Outcome.panic "makeslice: len out of range") := by
  constructor
  · obtain ⟨s, hs⟩ : ∃ s, NewTimestampSourceNames "foo" ⟨-1⟩ = (some s, none) :=
      ⟨_, New_eq _ _⟩
    have hn : s.nImages = -1 := (New_fields "foo" ⟨-1⟩ s hs).2.1
    exact ⟨s, hs, Images_of_unfit _ _ _ (Or.inl (by rw [hn]; decide))⟩
  · obtain ⟨s, hs⟩ :
        ∃ s, NewTimestampSourceNames "foo" ⟨4611686018427387904⟩ = (some s, none) :=
      ⟨_, New_eq _ _⟩
    have hn : s.nImages = 4611686018427387904 :=
      (New_fields "foo" ⟨4611686018427387904⟩ s hs).2.1
    exact ⟨s, hs, by decide, Images_of_unfit _ _ _ (Or.inr (by rw [hn]; decide))⟩

/-- C2, amended. A component built by `NewTimestampSourceNames` from a
configuration with `n_images = k`, where `k` is not negative and within the
allocation limit of the runtime, holds `k` in `nImages`, and after any calls
and with any content of the retained configuration record, `Images` returns
exactly `k` entries and a nil error. -/
theorem Images_count (rt : Runtime) (name : String) (k : Int) (calls : List Call)
    (live : Config) (now : Time) (hk : 0 ≤ k)
    (hfit : (rt.elemSize : Int) * k ≤ (rt.maxAlloc : Int)) :
    ∃ s, NewTimestampSourceNames name ⟨k⟩ = (some s, none) ∧ s.nImages = k ∧
      ∃ res meta, Images rt { run s calls with cfg := live } now
          = Outcome.ret (res, meta, none) ∧
        (res.length : Int) = k := by
  obtain ⟨s, hs⟩ : ∃ s, NewTimestampSourceNames name ⟨k⟩ = (some s, none) :=
    ⟨_, New_eq _ _⟩
  have hn : s.nImages = k := (New_fields name ⟨k⟩ s hs).2.1
  have hr : (run s calls).nImages = k := (run_fields calls s).2.trans hn
  have hl : ({ run s calls with cfg := live } :
      timeStampSourceNameTimestampSourceNames).nImages = k := hr
  refine ⟨s, hs, hn, _, _,
    Images_of_fits rt _ now (by rw [hl]; exact hk) (by rw [hl]; exact hfit), ?_⟩
  simp only [batch, List.length_map, List.length_range, hr]
  omega

/-- C2, amended, at `k = 3` on a 64-bit Linux build, after one call of each
supported operation and with the retained record overwritten by 7. -/
theorem Images_count_three :
    (0 : Int) ≤ 3 ∧ (linuxAmd64.elemSize : Int) * 3 ≤ (linuxAmd64.maxAlloc : Int) ∧
      ∃ s, NewTimestampSourceNames "cam" ⟨3⟩ = (some s, none) ∧
        ∃ res meta,
          Images linuxAmd64
              { run s [Call.images ⟨0, ⟨0, by decide⟩, 0⟩, Call.image "image/jpeg",
                  Call.properties, Call.close] with cfg := ⟨7⟩ }
              ⟨0, ⟨0, by decide⟩, 0⟩
            = Outcome.ret (res, meta, none) ∧
          (res.length : Int) = 3 := by
  refine ⟨by decide, by decide, ?_⟩
  obtain ⟨s, hs, _, res, meta, h, hl⟩ :=
    Images_count linuxAmd64 "cam" 3 [Call.images ⟨0, ⟨0, by decide⟩, 0⟩,
      Call.image "image/jpeg", Call.properties, Call.close] ⟨7⟩ ⟨0, ⟨0, by decide⟩, 0⟩
      (by decide) (by decide)
  exact ⟨s, hs, res, meta, h, hl⟩

/-- C3. Whatever `Images` returns for the instant `now`, the metadata carry
`CapturedAt = now`, the error is nil and the labels are built from the
formatting of that same `now`; and with a count that is not negative and
within the allocation limit of the runtime it does return. -/
theorem Images_capturedAt (rt : Runtime) (s : timeStampSourceNameTimestampSourceNames)
    (now : Time) :
    (∀ res meta err, Images rt s now = Outcome.ret (res, meta, err) →
        meta.CapturedAt = now ∧ err = none ∧
        res.map (fun e => e.SourceName)
          = (List.range res.length).map
              (fun (i : Nat) => sourceName (now.Format timestampChunks) (i : Int))) ∧
      (0 ≤ s.nImages → (rt.elemSize : Int) * s.nImages ≤ (rt.maxAlloc : Int) →
        ∃ res meta, Images rt s now = Outcome.ret (res, meta, none) ∧
          meta.CapturedAt = now) := by
  constructor
  · intro res meta err h
    obtain ⟨_, _, h1, h2, h3⟩ := Images_ret rt s now res meta err h
    subst h1 h2 h3
    refine ⟨rfl, rfl, ?_⟩
    simp [batch]
  · intro hn hfit
    exact ⟨_, _, Images_of_fits rt s now hn hfit, rfl⟩

/-- C3 at a component of two images on a 64-bit Linux build and the instant
1970-01-01T00:00:00Z. -/
theorem Images_capturedAt_two :
    (0 : Int) ≤ 2 ∧ (linuxAmd64.elemSize : Int) * 2 ≤ (linuxAmd64.maxAlloc : Int) ∧
      ∃ res meta,
        Images linuxAmd64 ⟨"cam", paintedPicture, 2, ⟨2⟩, false⟩ ⟨0, ⟨0, by decide⟩, 0⟩
          = Outcome.ret (res, meta, none) ∧
        meta.CapturedAt = ⟨0, ⟨0, by decide⟩, 0⟩ ∧
        res.map (fun e => e.SourceName)
          = ["1970-01-01T00:00:00.000Z_0", "1970-01-01T00:00:00.000Z_1"] := by
  refine ⟨by decide, by decide, ?_⟩
  have h := Images_capturedAt linuxAmd64 ⟨"cam", paintedPicture, 2, ⟨2⟩, false⟩
    ⟨0, ⟨0, by decide⟩, 0⟩
  obtain ⟨res, meta, hret, hcap⟩ := h.2 (by decide) (by decide)
  obtain ⟨_, _, hlab⟩ := h.1 res meta none hret
  have hlen : res.length = 2 := by
    rw [(Images_ret _ _ _ _ _ _ hret).2.2.1]
    rfl
  refine ⟨res, meta, hret, hcap, ?_⟩
  rw [hlab, hlen, epoch_Format]
  decide

/-- C4. `Validate` returns an error exactly when `n_images < 1` and a nil
error exactly when `n_images ≥ 1`, whatever the path; both dependency lists
are empty in either case. -/
theorem Validate_boundary (n : Int) (path : String) :
    ((Config.Validate ⟨n⟩ path).2.2 ≠ none ↔ n < 1) ∧
      ((Config.Validate ⟨n⟩ path).2.2 = none ↔ 1 ≤ n) ∧
      (Config.Validate ⟨n⟩ path).1 = [] ∧ (Config.Validate ⟨n⟩ path).2.1 = [] := by
  unfold Config.Validate
  by_cases h : n < 1
  · rw [if_pos h]
    refine ⟨⟨fun _ => h, fun _ => by simp⟩, ⟨fun h2 => by simp at h2, fun h2 => by omega⟩,
      rfl, rfl⟩
  · rw [if_neg h]
    refine ⟨⟨fun h2 => absurd rfl h2, fun h2 => absurd h2 h⟩, ⟨fun _ => by omega, fun _ => rfl⟩,
      rfl, rfl⟩

/-- C5, as stated, fails at the configuration of the command-line entry
point, `n_images = 0`: the constructor returns a component and a nil error. -/
theorem New_accepts_zero :
    (0 : Int) < 1 ∧ (NewTimestampSourceNames "foo" ⟨0⟩).2 = none ∧
      (NewTimestampSourceNames "foo" ⟨0⟩).1 = some ⟨"foo", paintedPicture, 0, ⟨0⟩, false⟩ := by
  refine ⟨by decide, ?_, ?_⟩
  · rw [New_eq]
  · rw [New_eq]

/-- C5, amended. `NewTimestampSourceNames` rejects nothing: for every
configuration it returns a nil error and a component that holds the count
and the record it was given; the count is refused by `Validate` alone, and
exactly below 1. -/
theorem New_never_rejects (name path : String) (conf : Config) :
    (∃ s, NewTimestampSourceNames name conf = (some s, none) ∧
        s.nImages = conf.NImages ∧ s.cfg = conf) ∧
      ((conf.Validate path).2.2 ≠ none ↔ conf.NImages < 1) := by
  refine ⟨⟨_, New_eq name conf, rfl, rfl⟩, ?_⟩
  unfold Config.Validate
  by_cases h : conf.NImages < 1
  · rw [if_pos h]
    exact ⟨fun _ => h, fun _ => by simp⟩
  · rw [if_neg h]
    exact ⟨fun h2 => absurd rfl h2, fun h2 => absurd h2 h⟩

/-- C7, as stated, fails at `Stream`: the call does not return the value
`errUnimplemented`, it panics. -/
theorem Stream_no_error_value :
    callUnsupported ⟨"cam", paintedPicture, 1, ⟨1⟩, false⟩ (Unsupported.stream [])
        ≠ Outcome.ret (some errUnimplemented) ∧
      callUnsupported ⟨"cam", paintedPicture, 1, ⟨1⟩, false⟩ (Unsupported.stream [])
        = Outcome.panic "not implemented" := by
  constructor
  · intro h
    have h2 : callUnsupported ⟨"cam", paintedPicture, 1, ⟨1⟩, false⟩ (Unsupported.stream [])
        = Outcome.panic "not implemented" := rfl
    rw [h2] at h
    exact Outcome.noConfusion h
  · rfl

/-- C7, amended. Each unsupported operation, on every component and every
input, panics with the message `not implemented`; it returns nothing to its
caller, neither a success nor an error value. -/
theorem unsupported_panics (s : timeStampSourceNameTimestampSourceNames) (u : Unsupported) :
    callUnsupported s u = Outcome.panic "not implemented" ∧
      ¬ (callUnsupported s u).returns := by
  have h : callUnsupported s u = Outcome.panic "not implemented" := by
    cases u <;> rfl
  refine ⟨h, ?_⟩
  rintro ⟨a, ha⟩
  rw [h] at ha
  exact Outcome.noConfusion ha

/-- C9. `Image` returns a nil error exactly when the encoder does on the
picture of the component and the hint; then it returns the bytes of the
encoder and metadata whose format is the hint; when the encoder returns an
error it returns that error, no bytes and empty metadata; the component is
the same after the call. -/
theorem Image_follows_encoder (encode : RGBA → String → List Nat × Option GoError)
    (s : timeStampSourceNameTimestampSourceNames) (mimeType : String) :
    ((Image encode s mimeType).2.2 = none ↔ (encode s.bluePic mimeType).2 = none) ∧
      ((encode s.bluePic mimeType).2 = none →
        Image encode s mimeType = ((encode s.bluePic mimeType).1, ⟨mimeType⟩, none)) ∧
      (∀ err, (encode s.bluePic mimeType).2 = some err →
        Image encode s mimeType = ([], ⟨""⟩, some err)) ∧
      step s (Call.image mimeType) = s := by
  unfold Image
  rcases h : encode s.bluePic mimeType with ⟨bytes, err⟩
  cases err with
  | none => simp [step]
  | some e => simp [step]

/-- C9 at an encoder that knows `image/jpeg` alone: one hint it accepts and
one it refuses. -/
theorem Image_follows_encoder_jpeg :
    Image (fun _ m => if m = "image/jpeg" then ([255, 216, 255], none)
        else ([], some ⟨"do not know how to encode"⟩))
        ⟨"cam", paintedPicture, 1, ⟨1⟩, false⟩ "image/jpeg"
      = ([255, 216, 255], ⟨"image/jpeg"⟩, none) ∧
    Image (fun _ m => if m = "image/jpeg" then ([255, 216, 255], none)
        else ([], some ⟨"do not know how to encode"⟩))
        ⟨"cam", paintedPicture, 1, ⟨1⟩, false⟩ "image/nope"
      = ([], ⟨""⟩, some ⟨"do not know how to encode"⟩) :=
  ⟨(Image_follows_encoder _ ⟨"cam", paintedPicture, 1, ⟨1⟩, false⟩ "image/jpeg").2.1 rfl,
   (Image_follows_encoder _ ⟨"cam", paintedPicture, 1, ⟨1⟩, false⟩ "image/nope").2.2.1
      ⟨"do not know how to encode"⟩ rfl⟩


/-- C6. The component that `NewTimestampSourceNames` returns holds a picture
with bounds 600 wide by 400 high whose every pixel `(x, y)`, `0 ≤ x < 600`
and `0 ≤ y < 400`, is `RGBA(0, 0, 255, 255)`; calls of `Images`, `Image`,
`Properties` and `Close` leave that picture as it is, and every entry of
every response of `Images`, on every platform, carries it. -/
theorem reference_image (rt : Runtime) (name : String) (conf : Config) (calls : List Call)
    (now : Time) :
    ∃ s, NewTimestampSourceNames name conf = (some s, none) ∧
      s.bluePic.Bounds = ⟨⟨0, 0⟩, ⟨600, 400⟩⟩ ∧
      s.bluePic.Bounds.Dx = 600 ∧ s.bluePic.Bounds.Dy = 400 ∧
      (∀ x y : Int, 0 ≤ x → x < 600 → 0 ≤ y → y < 400 →
        s.bluePic.RGBAAt x y = ⟨0, 0, 255, 255⟩) ∧
      (run s calls).bluePic = s.bluePic ∧
      (∀ res meta err, Images rt (run s calls) now = Outcome.ret (res, meta, err) →
        ∀ e ∈ res, e.Image = some s.bluePic) := by
  obtain ⟨s, hs⟩ : ∃ s, NewTimestampSourceNames name conf = (some s, none) :=
    ⟨_, New_eq name conf⟩
  have hpic : s.bluePic = paintedPicture := (New_fields name conf s hs).1
  obtain ⟨hb, hdx, hdy⟩ := Canvas_bounds paintedPicture Canvas_painted
  refine ⟨s, hs, ?_, ?_, ?_, ?_, (run_fields calls s).1, ?_⟩
  · rw [hpic]; exact hb
  · rw [hpic]; exact hdx
  · rw [hpic]; exact hdy
  · intro x y hx0 hx hy0 hy
    rw [hpic]
    exact painted_blue x y hx0 hx hy0 hy
  · intro res meta err h e he
    have hrun := (run_fields calls s).1
    obtain ⟨_, _, hres, _, _⟩ := Images_ret rt _ now res meta err h
    rw [hres] at he
    simp only [batch, List.mem_map] at he
    obtain ⟨i, _, rfl⟩ := he
    exact congrArg some hrun

/-- C6 at the component of three images on a 64-bit Linux build: the corner
pixels are blue, and after one call of each supported operation `Images`
returns three entries that carry the picture. -/
theorem reference_image_corners :
    ∃ s, NewTimestampSourceNames "cam" ⟨3⟩ = (some s, none) ∧
      s.bluePic.RGBAAt 0 0 = ⟨0, 0, 255, 255⟩ ∧
      s.bluePic.RGBAAt 599 399 = ⟨0, 0, 255, 255⟩ ∧
      ∃ res meta err,
        Images linuxAmd64 (run s [Call.images ⟨0, ⟨0, by decide⟩, 0⟩, Call.image "image/jpeg",
          Call.properties, Call.close]) ⟨0, ⟨0, by decide⟩, 0⟩ = Outcome.ret (res, meta, err) ∧
        res.length = 3 ∧ ∀ e ∈ res, e.Image = some s.bluePic := by
  obtain ⟨s, hs, _, _, _, hpix, _, himg⟩ :=
    reference_image linuxAmd64 "cam" ⟨3⟩ [Call.images ⟨0, ⟨0, by decide⟩, 0⟩,
      Call.image "image/jpeg", Call.properties, Call.close] ⟨0, ⟨0, by decide⟩, 0⟩
  have hn : s.nImages = 3 := (New_fields "cam" ⟨3⟩ s hs).2.1
  have hr := (run_fields [Call.images ⟨0, ⟨0, by decide⟩, 0⟩, Call.image "image/jpeg",
      Call.properties, Call.close] s).2
  rw [hn] at hr
  have hret := Images_of_fits linuxAmd64 (run s [Call.images ⟨0, ⟨0, by decide⟩, 0⟩,
      Call.image "image/jpeg", Call.properties, Call.close]) ⟨0, ⟨0, by decide⟩, 0⟩
    (by rw [hr]; decide) (by rw [hr]; decide)
  refine ⟨s, hs, hpix 0 0 (by decide) (by decide) (by decide) (by decide),
    hpix 599 399 (by decide) (by decide) (by decide) (by decide), _, _, _, hret, ?_,
    himg _ _ _ hret⟩
  simp only [batch, List.length_map, List.length_range, hr]
  rfl

/-- C8, as stated, fails in two ways on a component of two images. Two
instants 999999 clock ticks (nanoseconds) apart within one millisecond give
the same labels; and two instants half a minute apart, shown in zones 60 and
90 seconds east, give the same labels, as the zone field keeps whole minutes
only. -/
theorem same_labels_at_distinct_instants :
    (1 ≤ Time.UnixNano ⟨0, ⟨999999, by decide⟩, 0⟩ - Time.UnixNano ⟨0, ⟨0, by decide⟩, 0⟩ ∧
      ∃ res1 meta1 res2 meta2,
        Images linuxAmd64 ⟨"cam", paintedPicture, 2, ⟨2⟩, false⟩ ⟨0, ⟨0, by decide⟩, 0⟩
          = Outcome.ret (res1, meta1, none) ∧
        Images linuxAmd64 ⟨"cam", paintedPicture, 2, ⟨2⟩, false⟩ ⟨0, ⟨999999, by decide⟩, 0⟩
          = Outcome.ret (res2, meta2, none) ∧
        res1.map (fun e => e.SourceName)
          = ["1970-01-01T00:00:00.000Z_0", "1970-01-01T00:00:00.000Z_1"] ∧
        res2.map (fun e => e.SourceName)
          = ["1970-01-01T00:00:00.000Z_0", "1970-01-01T00:00:00.000Z_1"]) ∧
    (1 ≤ Time.UnixNano ⟨30, ⟨0, by decide⟩, 60⟩ - Time.UnixNano ⟨0, ⟨0, by decide⟩, 90⟩ ∧
      Time.UnixMilli ⟨30, ⟨0, by decide⟩, 60⟩ ≠ Time.UnixMilli ⟨0, ⟨0, by decide⟩, 90⟩ ∧
      ∃ res1 meta1 res2 meta2,
        Images linuxAmd64 ⟨"cam", paintedPicture, 2, ⟨2⟩, false⟩ ⟨30, ⟨0, by decide⟩, 60⟩
          = Outcome.ret (res1, meta1, none) ∧
        Images linuxAmd64 ⟨"cam", paintedPicture, 2, ⟨2⟩, false⟩ ⟨0, ⟨0, by decide⟩, 90⟩
          = Outcome.ret (res2, meta2, none) ∧
        res1.map (fun e => e.SourceName)
          = ["1970-01-01T00:01:30.000+00:01_0", "1970-01-01T00:01:30.000+00:01_1"] ∧
        res2.map (fun e => e.SourceName)
          = ["1970-01-01T00:01:30.000+00:01_0", "1970-01-01T00:01:30.000+00:01_1"]) := by
  obtain ⟨a1, ma1, ha1, la1⟩ := labels_of_fits linuxAmd64
    ⟨"cam", paintedPicture, 2, ⟨2⟩, false⟩ ⟨0, ⟨0, by decide⟩, 0⟩ _
    (by decide) (by decide) epoch_Format
  obtain ⟨a2, ma2, ha2, la2⟩ := labels_of_fits linuxAmd64
    ⟨"cam", paintedPicture, 2, ⟨2⟩, false⟩ ⟨0, ⟨999999, by decide⟩, 0⟩ _
    (by decide) (by decide) epoch_late_Format
  obtain ⟨b1, mb1, hb1, lb1⟩ := labels_of_fits linuxAmd64
    ⟨"cam", paintedPicture, 2, ⟨2⟩, false⟩ ⟨30, ⟨0, by decide⟩, 60⟩ _
    (by decide) (by decide) minute_zone_Format
  obtain ⟨b2, mb2, hb2, lb2⟩ := labels_of_fits linuxAmd64
    ⟨"cam", paintedPicture, 2, ⟨2⟩, false⟩ ⟨0, ⟨0, by decide⟩, 90⟩ _
    (by decide) (by decide) half_minute_zone_Format
  refine ⟨⟨by decide, a1, ma1, a2, ma2, ha1, ha2, ?_, ?_⟩,
    ⟨by decide, by decide, b1, mb1, b2, mb2, hb1, hb2, ?_, ?_⟩⟩
  · rw [la1]; decide
  · rw [la2]; decide
  · rw [lb1]; decide
  · rw [lb2]; decide

/-- C8, amended. The timestamps of two instants differ exactly when their
zones are written differently by the layout or the clocks of their zones
show a different second or millisecond. So for two instants that fall in
different milliseconds, in zones that are written differently whenever their
offsets differ, the timestamps differ; the labels of any two responses of
`Images` at those instants are built from these two different timestamps and
differ at every index. -/
theorem timestamps_differ (rt : Runtime) (s1 s2 : timeStampSourceNameTimestampSourceNames)
    (t1 t2 : Time) :
    (t1.Format timestampChunks ≠ t2.Format timestampChunks ↔
        (appendZone t1.offset ≠ appendZone t2.offset ∨ t1.abs ≠ t2.abs ∨
          t1.nsec.val / 1000000 ≠ t2.nsec.val / 1000000)) ∧
      ((appendZone t1.offset = appendZone t2.offset → t1.offset = t2.offset) →
        t1.UnixMilli ≠ t2.UnixMilli →
        t1.Format timestampChunks ≠ t2.Format timestampChunks ∧
        ∀ res1 meta1 err1 res2 meta2 err2,
          Images rt s1 t1 = Outcome.ret (res1, meta1, err1) →
          Images rt s2 t2 = Outcome.ret (res2, meta2, err2) →
          res1.map (fun e => e.SourceName)
            = (List.range res1.length).map
                (fun (i : Nat) => t1.Format timestampChunks ++ "_" ++ Nat.repr i) ∧
          res2.map (fun e => e.SourceName)
            = (List.range res2.length).map
                (fun (i : Nat) => t2.Format timestampChunks ++ "_" ++ Nat.repr i) ∧
          ∀ (i : Nat) (h1 : i < res1.length) (h2 : i < res2.length),
            (res1.get ⟨i, h1⟩).SourceName ≠ (res2.get ⟨i, h2⟩).SourceName) := by
  constructor
  · rw [Ne, Format_eq_iff]
    constructor
    · intro h
      by_contra hc
      simp only [not_or, not_not] at hc
      exact h ⟨hc.2.1, hc.2.2, hc.1⟩
    · rintro h ⟨ha, hn, hz⟩
      rcases h with h | h | h
      · exact h hz
      · exact h ha
      · exact h hn
  · intro hz hms
    have hne : t1.Format timestampChunks ≠ t2.Format timestampChunks := by
      intro h
      obtain ⟨habs, hn, hzone⟩ := Format_fields t1 t2 h
      have hoff := hz hzone
      apply hms
      unfold Time.abs at habs
      unfold Time.UnixMilli
      omega
    refine ⟨hne, ?_⟩
    intro res1 meta1 err1 res2 meta2 err2 h1 h2
    refine ⟨map_SourceName_ret rt s1 t1 res1 meta1 err1 h1,
      map_SourceName_ret rt s2 t2 res2 meta2 err2 h2, ?_⟩
    intro i hi1 hi2 heq
    obtain ⟨_, _, r1, _, _⟩ := Images_ret rt s1 t1 res1 meta1 err1 h1
    obtain ⟨_, _, r2, _, _⟩ := Images_ret rt s2 t2 res2 meta2 err2 h2
    subst r1 r2
    simp only [batch, List.get_eq_getElem, List.getElem_map, List.getElem_range,
      sourceName] at heq
    have hd := congrArg String.data heq
    simp only [String.data_append] at hd
    have := List.append_cancel_right hd
    exact hne (String.ext (List.append_cancel_right this))

/-- C8, amended, at the end of daylight saving time of 2026: two instants one
millisecond apart, the first shown four hours west and the second five. -/
theorem timestamps_differ_across_zone_change :
    (appendZone (-14400) = appendZone (-18000) → (-14400 : Int) = -18000) ∧
      1000000 ≤ Time.UnixNano ⟨1793512800, ⟨500000, by decide⟩, -18000⟩
        - Time.UnixNano ⟨1793512799, ⟨999500000, by decide⟩, -14400⟩ ∧
      Time.UnixMilli ⟨1793512799, ⟨999500000, by decide⟩, -14400⟩
        ≠ Time.UnixMilli ⟨1793512800, ⟨500000, by decide⟩, -18000⟩ ∧
      ∃ res1 meta1 res2 meta2,
        Images linuxAmd64 ⟨"cam", paintedPicture, 2, ⟨2⟩, false⟩
            ⟨1793512799, ⟨999500000, by decide⟩, -14400⟩
          = Outcome.ret (res1, meta1, none) ∧
        Images linuxAmd64 ⟨"cam", paintedPicture, 2, ⟨2⟩, false⟩
            ⟨1793512800, ⟨500000, by decide⟩, -18000⟩
          = Outcome.ret (res2, meta2, none) ∧
        res1.map (fun e => e.SourceName)
          = ["2026-11-01T01:59:59.999-04:00_0", "2026-11-01T01:59:59.999-04:00_1"] ∧
        res2.map (fun e => e.SourceName)
          = ["2026-11-01T01:00:00.000-05:00_0", "2026-11-01T01:00:00.000-05:00_1"] ∧
        Time.Format ⟨1793512799, ⟨999500000, by decide⟩, -14400⟩ timestampChunks
          ≠ Time.Format ⟨1793512800, ⟨500000, by decide⟩, -18000⟩ timestampChunks := by
  have hz : appendZone (-14400) = appendZone (-18000) → (-14400 : Int) = -18000 :=
    fun h => absurd h (by decide)
  obtain ⟨hne, hlab⟩ := (timestamps_differ linuxAmd64
    ⟨"cam", paintedPicture, 2, ⟨2⟩, false⟩ ⟨"cam", paintedPicture, 2, ⟨2⟩, false⟩
    ⟨1793512799, ⟨999500000, by decide⟩, -14400⟩
    ⟨1793512800, ⟨500000, by decide⟩, -18000⟩).2 hz (by decide)
  have r1 := Images_of_fits linuxAmd64 ⟨"cam", paintedPicture, 2, ⟨2⟩, false⟩
    ⟨1793512799, ⟨999500000, by decide⟩, -14400⟩ (by decide) (by decide)
  have r2 := Images_of_fits linuxAmd64 ⟨"cam", paintedPicture, 2, ⟨2⟩, false⟩
    ⟨1793512800, ⟨500000, by decide⟩, -18000⟩ (by decide) (by decide)
  obtain ⟨l1, l2, _⟩ := hlab _ _ _ _ _ _ r1 r2
  refine ⟨hz, by decide, by decide, _, _, _, _, r1, r2, ?_, ?_, hne⟩
  · rw [l1, summer_Format]; decide
  · rw [l2, winter_Format]; decide

/-- C10, as stated, fails at the largest `int` on a 64-bit Linux build: the
count is not negative and `Validate` accepts it, yet the allocation of
`Images` panics and nothing is returned. -/
theorem Images_panics_at_MaxInt64 :
    (0 : Int) ≤ 9223372036854775807 ∧
      (Config.Validate ⟨9223372036854775807⟩ "components.0").2.2 = none ∧
      ∃ s, NewTimestampSourceNames "foo" ⟨9223372036854775807⟩ = (some s, none) ∧
        Images linuxAmd64 s ⟨0, ⟨0, by decide⟩, 0⟩
          = Outcome.panic "makeslice: len out of range" ∧
        ¬ (Images linuxAmd64 s ⟨0, ⟨0, by decide⟩, 0⟩).returns := by
  obtain ⟨s, hs⟩ :
      ∃ s, NewTimestampSourceNames "foo" ⟨9223372036854775807⟩ = (some s, none) :=
    ⟨_, New_eq _ _⟩
  have hn : s.nImages = 9223372036854775807 :=
    (New_fields "foo" ⟨9223372036854775807⟩ s hs).2.1
  have h := Images_of_unfit linuxAmd64 s ⟨0, ⟨0, by decide⟩, 0⟩
    (Or.inr (by rw [hn]; decide))
  refine ⟨by decide, by decide, s, hs, h, ?_⟩
  rintro ⟨a, ha⟩
  rw [h] at ha
  exact Outcome.noConfusion ha

/-- C10, amended. For the component built from any configuration, `Images`
returns (with a nil error) if and only if `n_images` is not negative and the
byte size of `n_images` entries is within the allocation limit of the
runtime; otherwise the allocation of the slice panics and nothing is
returned. -/
theorem Images_returns_iff (rt : Runtime) (name : String) (conf : Config) (now : Time) :
    ∃ s, NewTimestampSourceNames name conf = (some s, none) ∧
      ((∃ res meta, Images rt s now = Outcome.ret (res, meta, none)) ↔
        (0 ≤ conf.NImages ∧ (rt.elemSize : Int) * conf.NImages ≤ (rt.maxAlloc : Int))) ∧
      ((Images rt s now).returns ↔
        (0 ≤ conf.NImages ∧ (rt.elemSize : Int) * conf.NImages ≤ (rt.maxAlloc : Int))) ∧
      (conf.NImages < 0 ∨ (rt.maxAlloc : Int) < (rt.elemSize : Int) * conf.NImages →
        Images rt s now = Outcome.panic "makeslice: len out of range") := by
  obtain ⟨s, hs⟩ : ∃ s, NewTimestampSourceNames name conf = (some s, none) :=
    ⟨_, New_eq name conf⟩
  have hn : s.nImages = conf.NImages := (New_fields name conf s hs).2.1
  refine ⟨s, hs, ?_, ?_, ?_⟩
  · constructor
    · rintro ⟨res, meta, h⟩
      obtain ⟨h0, hfit, _⟩ := Images_ret rt s now res meta none h
      rw [hn] at h0 hfit
      exact ⟨h0, hfit⟩
    · rintro ⟨h0, hfit⟩
      exact ⟨_, _, Images_of_fits rt s now (by rw [hn]; exact h0) (by rw [hn]; exact hfit)⟩
  · constructor
    · rintro ⟨⟨res, meta, err⟩, h⟩
      obtain ⟨h0, hfit, _⟩ := Images_ret rt s now res meta err h
      rw [hn] at h0 hfit
      exact ⟨h0, hfit⟩
    · rintro ⟨h0, hfit⟩
      exact ⟨_, Images_of_fits rt s now (by rw [hn]; exact h0) (by rw [hn]; exact hfit)⟩
  · intro h
    exact Images_of_unfit rt s now (by rw [hn]; exact h)

/-- C10, amended, on a 64-bit Linux build at `n_images = -1`, at
`n_images = 0`, the configuration of the command-line entry point, and at
`n_images = 2 ^ 43 + 1`, the first count beyond the allocation limit. -/
theorem Images_returns_iff_examples :
    (∃ s, NewTimestampSourceNames "foo" ⟨-1⟩ = (some s, none) ∧
      Images linuxAmd64 s ⟨0, ⟨0, by decide⟩, 0⟩
        = Outcome.panic "makeslice: len out of range") ∧
    (∃ s, NewTimestampSourceNames "foo" ⟨0⟩ = (some s, none) ∧
      ∃ res meta, Images linuxAmd64 s ⟨0, ⟨0, by decide⟩, 0⟩
        = Outcome.ret (res, meta, none)) ∧
    (∃ s, NewTimestampSourceNames "foo" ⟨8796093022209⟩ = (some s, none) ∧
      Images linuxAmd64 s ⟨0, ⟨0, by decide⟩, 0⟩
        = Outcome.panic "makeslice: len out of range") := by
  refine ⟨?_, ?_, ?_⟩
  · obtain ⟨s, hs, _, _, h⟩ :=
      Images_returns_iff linuxAmd64 "foo" ⟨-1⟩ ⟨0, ⟨0, by decide⟩, 0⟩
    exact ⟨s, hs, h (Or.inl (by decide))⟩
  · obtain ⟨s, hs, h, _, _⟩ :=
      Images_returns_iff linuxAmd64 "foo" ⟨0⟩ ⟨0, ⟨0, by decide⟩, 0⟩
    exact ⟨s, hs, h.mpr ⟨by decide, by decide⟩⟩
  · obtain ⟨s, hs, _, _, h⟩ :=
      Images_returns_iff linuxAmd64 "foo" ⟨8796093022209⟩ ⟨0, ⟨0, by decide⟩, 0⟩
    exact ⟨s, hs, h (Or.inr (by decide))⟩

end TimestampSourceName
